import Mathlib

/-!
Verification of the patchutils patch-file parser (src/patchutils.py) against
its specification.  The Python source is shallowly embedded: lines are lists
of characters, the Reader becomes an explicit state record, and each method
becomes a pure function from state to state.  Mutable updates are modelled by
rebuilding records; Python exceptions that the source can actually raise
(NotImplementedError in the context/git-binary hunk stubs, TypeError in
EdHunk.parse when get_edcmd returns None) are modelled with Except.
-/

namespace Patchutils

/-- A Python string, modelled as a list of characters. -/
abbrev Chars := List Char

/-- Python whitespace, as used by str.lstrip, str.rstrip, str.isspace, `\s`. -/
def isPySpace (c : Char) : Bool :=
  c = ' ' ∨ c = '\t' ∨ c = '\n' ∨ c = '\r' ∨ c = '\x0b' ∨ c = '\x0c'

/-- Python str.lstrip with no argument. -/
def pyLstrip (s : Chars) : Chars := s.dropWhile isPySpace

/-- Python str.rstrip with no argument. -/
def pyRstrip (s : Chars) : Chars := (s.reverse.dropWhile isPySpace).reverse

/-- Python str.isspace: nonempty and all whitespace. -/
def pyIsSpaceStr (s : Chars) : Bool := s ≠ [] ∧ s.all isPySpace

/-- Helper for pySplitWs; the fuel (one more than the string length) is always
sufficient because each round consumes the nonempty token at the head. -/
def pySplitWsAux : Nat → Chars → List Chars
  | 0, _ => []
  | fuel + 1, s =>
    match s.dropWhile isPySpace with
    | [] => []
    | c :: rest =>
      let w := (c :: rest).takeWhile (fun d => ¬ isPySpace d)
      w :: pySplitWsAux fuel ((c :: rest).drop w.length)

/-- Python str.split() with no argument: maximal runs of non-whitespace. -/
def pySplitWs (s : Chars) : List Chars := pySplitWsAux (s.length + 1) s

/-- Python s.startswith(p, i). -/
def startswithFrom (s p : Chars) (i : Nat) : Bool := p.isPrefixOf (s.drop i)

/-- Python s1 in s2 for strings: contiguous-substring test. -/
def pyInStr (needle hay : Chars) : Bool :=
  (List.range (hay.length + 1)).any (fun i => needle.isPrefixOf (hay.drop i))

/-- Python s[-2:] for a list (the last two characters, or fewer). -/
def takeLast2 (s : Chars) : Chars := s.drop (s.length - 2)

/-- Whether a line ends in a newline character (Python s.endswith of a newline). -/
def endsWithNl (s : Chars) : Bool := s.getLast? = some '\n'

/-- Python list slice l[start:stop] with a possibly-absent stop.
Negative stops never occur at the call sites that reach this function. -/
def pySlice (l : List Chars) (start : Nat) (stop : Option Int) : List Chars :=
  match stop with
  | none => l.drop start
  | some e => (l.take e.toNat).drop start

def isDigitCh (c : Char) : Bool := '0' ≤ c ∧ c ≤ '9'

def isOctalCh (c : Char) : Bool := '0' ≤ c ∧ c ≤ '7'

def isHexCh (c : Char) : Bool :=
  isDigitCh c ∨ ('a' ≤ c ∧ c ≤ 'f') ∨ ('A' ≤ c ∧ c ≤ 'F')

def isLowerHexCh (c : Char) : Bool := isDigitCh c ∨ ('a' ≤ c ∧ c ≤ 'f')

def digitVal (c : Char) : Nat := c.toNat - 48

def hexVal (c : Char) : Nat :=
  if isDigitCh c then c.toNat - 48
  else if 'a' ≤ c ∧ c ≤ 'f' then c.toNat - 87
  else c.toNat - 55

def natOfDigits (ds : Chars) : Nat := ds.foldl (fun a c => a * 10 + digitVal c) 0

def natOfOctDigits (ds : Chars) : Nat := ds.foldl (fun a c => a * 8 + digitVal c) 0

def natOfHexDigits (ds : Chars) : Nat := ds.foldl (fun a c => a * 16 + hexVal c) 0

/-- Python int(spec, base=8): strip surrounding whitespace, optional sign,
then a nonempty run of octal digits.  (The 0o-prefix and underscore
forms accepted by Python int never occur in patch mode strings.) -/
def pyIntOctal (s : Chars) : Option Int :=
  let t := pyRstrip (pyLstrip s)
  let core : Chars → Option Nat := fun ds =>
    if ds ≠ [] ∧ ds.all isOctalCh then some (natOfOctDigits ds) else none
  match t with
  | '-' :: ds => (core ds).map (fun n => -(n : Int))
  | '+' :: ds => (core ds).map (fun n => (n : Int))
  | ds => (core ds).map (fun n => (n : Int))

/-- Source fetchmode: parse as base-8 int, any failure yields 0. -/
def fetchmode (spec : Chars) : Int := (pyIntOctal spec).getD 0

/-!  The Reader framework (class Reader / class LineReader of the source).
The in-memory line reader holds the immutable list of input lines, the
current line number, the current post-processed line buffer, and the four
mode fields set in Reader.__init__. -/

structure RState where
  lines : List Chars
  lineno : Nat
  line : Chars
  tab_size : Nat
  indent : Nat
  rfc934_nesting : Nat
  strip_cr : Bool
deriving DecidableEq, Repr

/-- A fresh LineReader over the given lines (Reader.__init__ defaults:
tab_size 8, indent 0, rfc934_nesting 0, strip_cr False; LineReader lineno 0).
The line buffer starts unset in the source; it is only ever read after a
successful fetch sets it, so the initial value is irrelevant. -/
def LineReader.init (lines : List Chars) : RState :=
  { lines := lines, lineno := 0, line := [], tab_size := 8,
    indent := 0, rfc934_nesting := 0, strip_cr := false }

/-- LineReader._get_line: return the current line and advance, or None at EOF. -/
def _get_line (st : RState) : Option (Chars × RState) :=
  if h : st.lineno < st.lines.length then
    some (st.lines.get ⟨st.lineno, h⟩, { st with lineno := st.lineno + 1 })
  else none

theorem _get_line_some {st : RState} {l : Chars} {st' : RState}
    (h : _get_line st = some (l, st')) :
    st'.lines = st.lines ∧ st'.lineno = st.lineno + 1 ∧ st.lineno < st.lines.length := by
  unfold _get_line at h
  split at h
  · cases h; exact ⟨rfl, rfl, by assumption⟩
  · cases h

/-- The indentation-measuring loop at the top of Reader.pget_line: walk the
line accumulating the indent width (tabs advance to the next tab stop,
spaces and the literal X count one), stopping as soon as the accumulated
width reaches the requested indent or a non-indent character appears.
Returns the index where the loop stopped.  (When the scan runs off the end
of the line the source leaves the loop variable at len-1; that needs a line
with no newline and only indent characters, on which pget_line fails
anyway before using the index in a way that could differ.) -/
def indentScan (tab indentLimit : Nat) : Chars → Nat → Nat → Nat
  | [], _, i => i
  | c :: cs, cur, i =>
    if cur ≥ indentLimit then i
    else if c = '\t' then indentScan tab indentLimit cs (cur + (tab - cur % tab)) (i + 1)
    else if c = ' ' ∨ c = 'X' then indentScan tab indentLimit cs (cur + 1) (i + 1)
    else i

/-- The RFC-934 unquoting loop of Reader.pget_line: starting at index i,
skip up to `nesting` occurrences of the two-character quote mark. -/
def rfc934Strip : Nat → Chars → Nat → Nat
  | 0, _, i => i
  | n + 1, line, i =>
    if startswithFrom line ['-', ' '] i then rfc934Strip n line (i + 2) else i

/-- The comment-skipping fetch loop of Reader.pget_line.  The fuel argument
is a termination device only: each round consumes a line, so the fuel chosen
by pget_line (remaining lines plus one) always exceeds the number of rounds
and the fuel-exhaustion branch is unreachable. -/
def pget_line_loop : Nat → RState → Nat → Nat → Bool → Bool → RState × Bool
  | 0, st, _, _, _, _ => (st, false)
  | fuel + 1, st, indent, nesting, strip_cr, skip_comments =>
    match _get_line st with
    | none => (st, false)
    | some (line, st1) =>
      let i0 := indentScan st.tab_size indent line 0 0
      let i := rfc934Strip nesting line i0
      if skip_comments ∧ startswithFrom line ['#'] i then
        pget_line_loop fuel st1 indent nesting strip_cr skip_comments
      else if ¬ endsWithNl line then (st1, false)
      else if strip_cr ∧ takeLast2 line = ['\r', '\n'] then
        ({ st1 with line := ((line.drop i).dropLast.dropLast) ++ ['\n'] }, true)
      else ({ st1 with line := line.drop i }, true)

/-- Reader.pget_line.  Returns the updated reader state together with the
success flag; on failure the line buffer keeps its previous value but any
lines consumed (a truncated line, skipped comments) stay consumed, exactly
as in the source where the reader object was already mutated. -/
def pget_line (st : RState) (indent nesting : Nat) (strip_cr skip_comments : Bool) :
    RState × Bool :=
  pget_line_loop (st.lines.length - st.lineno + 1) st indent nesting strip_cr skip_comments

/-- Reader.get_line. -/
def get_line (st : RState) (skip_comments : Bool) : RState × Bool :=
  pget_line st st.indent st.rfc934_nesting st.strip_cr skip_comments

/-- Reader.get_raw_line (the skip_comments parameter is ignored by the source). -/
def get_raw_line (st : RState) : RState × Bool :=
  pget_line st 0 0 false true

/-- Reader.get_pos. -/
def get_pos (st : RState) (lineoff : Int) : Int := (st.lineno : Int) + lineoff

/-- LineReader.set_pos.  Every reachable call passes a nonnegative position. -/
def set_pos (st : RState) (p : Int) : RState := { st with lineno := p.toNat }

/-- The scan of Reader.strip_indent: accumulate the indent width without any
limit and return it with the index of the first non-indent character.
(As with indentScan, running off the end only happens for lines without a
newline consisting solely of indent characters, which no reachable caller
produces: strip_indent is only applied to lines stored by a successful
get_raw_line, which end in a newline.) -/
def stripScan (tab : Nat) : Chars → Nat → Nat → Nat × Nat
  | [], ind, i => (ind, i)
  | c :: cs, ind, i =>
    if c = '\t' then stripScan tab cs (ind + (tab - ind % tab)) (i + 1)
    else if c = ' ' ∨ c = 'X' then stripScan tab cs (ind + 1) (i + 1)
    else (ind, i)

/-- Reader.strip_indent: measure and strip the indentation of the stored line. -/
def strip_indent (st : RState) : Nat × RState :=
  let (ind, i) := stripScan st.tab_size st.line 0 0
  (ind, { st with line := st.line.drop i })

/-- LineReader.get_raw_lines: the verbatim slice self.lines[start:end]. -/
def get_raw_lines (st : RState) (start : Int) (stop : Option Int) : List Chars :=
  pySlice st.lines start.toNat stop

theorem pget_line_loop_lines (fuel : Nat) (st : RState) (indent nesting : Nat)
    (cr sc : Bool) :
    (pget_line_loop fuel st indent nesting cr sc).1.lines = st.lines ∧
      st.lineno ≤ (pget_line_loop fuel st indent nesting cr sc).1.lineno := by
  induction fuel generalizing st with
  | zero => exact ⟨rfl, le_refl _⟩
  | succ fuel ih =>
    rw [pget_line_loop]
    cases heq : _get_line st with
    | none => exact ⟨rfl, le_refl _⟩
    | some p =>
      obtain ⟨line, st1⟩ := p
      obtain ⟨h1, h2, h3⟩ := _get_line_some heq
      simp only
      split
      · obtain ⟨ihl, ihn⟩ := ih st1
        rw [h1] at ihl
        refine ⟨ihl, ?_⟩
        omega
      · split
        · exact ⟨h1, by show st.lineno ≤ st1.lineno; omega⟩
        · split
          · exact ⟨h1, by show st.lineno ≤ st1.lineno; omega⟩
          · exact ⟨h1, by show st.lineno ≤ st1.lineno; omega⟩

theorem pget_line_loop_success_lt (fuel : Nat) (st : RState) (indent nesting : Nat)
    (cr sc : Bool) (hs : (pget_line_loop fuel st indent nesting cr sc).2 = true) :
    st.lineno < (pget_line_loop fuel st indent nesting cr sc).1.lineno := by
  induction fuel generalizing st with
  | zero => simp [pget_line_loop] at hs
  | succ fuel ih =>
    rw [pget_line_loop] at hs ⊢
    cases heq : _get_line st with
    | none => rw [heq] at hs; simp at hs
    | some p =>
      obtain ⟨line, st1⟩ := p
      rw [heq] at hs
      obtain ⟨h1, h2, h3⟩ := _get_line_some heq
      simp only at hs ⊢
      split at hs
      · rename_i hcond
        rw [if_pos hcond]
        have := ih st1 hs
        omega
      · rename_i hcond
        rw [if_neg hcond]
        split at hs
        · simp at hs
        · rename_i hnl
          rw [if_neg hnl]
          split at hs <;> [skip; skip] <;>
          · rename_i hcr
            first
            | (rw [if_pos hcr]; show st.lineno < st1.lineno; omega)
            | (rw [if_neg hcr]; show st.lineno < st1.lineno; omega)

theorem pget_line_lines (st : RState) (indent nesting : Nat) (cr sc : Bool) :
    (pget_line st indent nesting cr sc).1.lines = st.lines :=
  (pget_line_loop_lines _ st indent nesting cr sc).1

theorem pget_line_lineno_le (st : RState) (indent nesting : Nat) (cr sc : Bool) :
    st.lineno ≤ (pget_line st indent nesting cr sc).1.lineno :=
  (pget_line_loop_lines _ st indent nesting cr sc).2

theorem pget_line_success_lt (st : RState) (indent nesting : Nat) (cr sc : Bool)
    (hs : (pget_line st indent nesting cr sc).2 = true) :
    st.lineno < (pget_line st indent nesting cr sc).1.lineno :=
  pget_line_loop_success_lt _ st indent nesting cr sc hs

/-!  The compiled regular expressions of the source, modelled as direct
matchers.  All of them are used with re.match, i.e. they match a prefix of
the line; the matchers below follow the greedy, effectively deterministic
structure of each pattern. -/

/-- Match a nonempty digit run at the head (a `\d+` group), returning its
value and the rest. -/
def matchNat (s : Chars) : Option (Nat × Chars) :=
  let ds := s.takeWhile isDigitCh
  if ds = [] then none else some (natOfDigits ds, s.drop ds.length)

/-- Match an optional `,\d+` group: if a comma followed by digits is present
consume it, otherwise leave the input unchanged (the group stays absent). -/
def optCommaNat (s : Chars) : Option Nat × Chars :=
  match s with
  | ',' :: rest =>
    match matchNat rest with
    | some (n, rest2) => (some n, rest2)
    | none => (none, s)
  | _ => (none, s)

/-- Require a literal at the head, returning the rest. -/
def dropLit (pat s : Chars) : Option Chars :=
  if pat.isPrefixOf s then some (s.drop pat.length) else none

/-- The five capture groups of re_cmd. -/
structure CmdGroups where
  l1 : Nat
  l2 : Option Nat
  cmd : Char
  l3 : Nat
  l4 : Option Nat
deriving DecidableEq, Repr

/-- re_cmd: the normal-diff command line
`(\d+)(?:,(\d+))?([acd])(\d+)(?:,(\d+))?[ \t]*\r?\n` (prefix match). -/
def re_cmd_match (line : Chars) : Option CmdGroups := do
  let (l1, s) ← matchNat line
  let (l2, s) := optCommaNat s
  let (c, s) ← match s with
    | c :: rest => if c = 'a' ∨ c = 'c' ∨ c = 'd' then some (c, rest) else none
    | [] => none
  let (l3, s) ← matchNat s
  let (l4, s) := optCommaNat s
  let s := s.dropWhile (fun c => c = ' ' ∨ c = '\t')
  let s := if startswithFrom s ['\r'] 0 then s.drop 1 else s
  if startswithFrom s ['\n'] 0 then some ⟨l1, l2, c, l3, l4⟩ else none

/-- The five capture groups of re_unihunk. -/
structure UniGroups where
  s : Nat
  p : Option Nat
  d : Nat
  r : Option Nat
  sect : Option Chars
deriving DecidableEq, Repr

/-- re_unihunk: `@@ -(\d+)(?:,(\d+))? \+(\d+)(?:,(\d+))? @@(?: (.*))?`
(prefix match; the final group captures to the end of the line excluding
the newline, since `.` does not match a newline). -/
def re_unihunk_match (line : Chars) : Option UniGroups := do
  let s ← dropLit ['@', '@', ' ', '-'] line
  let (sNum, s) ← matchNat s
  let (p, s) := optCommaNat s
  let s ← dropLit [' ', '+'] s
  let (dNum, s) ← matchNat s
  let (r, s) := optCommaNat s
  let s ← dropLit [' ', '@', '@'] s
  let sect : Option Chars :=
    if startswithFrom s [' '] 0 then some ((s.drop 1).takeWhile (fun c => c ≠ '\n'))
    else none
  some ⟨sNum, p, dNum, r, sect⟩

/-- One command token of re_edcmd: the literal `s/.//` or a single letter
from the allowed set, returned as the captured group string. -/
def matchEdLetter (allowed : List Char) (s : Chars) : Option (Chars × Chars) :=
  if ['s', '/', '.', '/', '/'].isPrefixOf s then
    some (['s', '/', '.', '/', '/'], s.drop 5)
  else match s with
    | c :: rest => if c ∈ allowed then some ([c], rest) else none
    | [] => none

/-- The trailing `[ \t]*\r?\n` of re_cmd and re_edcmd (as a prefix). -/
def edTail (s : Chars) : Bool :=
  let s := s.dropWhile (fun c => c = ' ' ∨ c = '\t')
  let s := if startswithFrom s ['\r'] 0 then s.drop 1 else s
  startswithFrom s ['\n'] 0

/-- Source get_edcmd built on re_edcmd
`(?:(?:\d+)?([aicd]|s/.//)|\d+,\d+([cd]|s/.//))[ \t]*\r?\n`: the first
alternative (an optional address then a command) is tried first; because
every command token starts with a non-digit, the optional address can only
ever match the full digit run, so the alternation is deterministic. -/
def get_edcmd (line : Chars) : Option Chars :=
  let alt1 : Option Chars := do
    let ds := line.takeWhile isDigitCh
    let (cmd, rest) ← matchEdLetter ['a', 'i', 'c', 'd'] (line.drop ds.length)
    if edTail rest then some cmd else none
  match alt1 with
  | some cmd => some cmd
  | none => do
    let (_, s) ← matchNat line
    let s ← dropLit [','] s
    let (_, s) ← matchNat s
    let (cmd, rest) ← matchEdLetter ['c', 'd'] s
    if edTail rest then some cmd else none

/-- re_tabterm: `([^\t]*)\t(.*)` — split at the first tab; the second group
stops at a newline. -/
def re_tabterm_match (s : Chars) : Option (Chars × Chars) :=
  let g1 := s.takeWhile (fun c => c ≠ '\t')
  match s.drop g1.length with
  | '\t' :: r => some (g1, r.takeWhile (fun c => c ≠ '\n'))
  | _ => none

/-- The body scan of re_cstring after the opening quote: characters are
either an escape pair `\\.` (whose second character cannot be a newline) or
any single character other than a quote or backslash; a bare quote closes
the string.  Returns the matched body including the closing quote, plus the
rest of the input. -/
def cstrScan : Chars → Chars → Option (Chars × Chars)
  | '"' :: rest, acc => some (acc ++ ['"'], rest)
  | '\\' :: c :: rest, acc =>
    if c = '\n' then none else cstrScan rest (acc ++ ['\\', c])
  | ['\\'], _ => none
  | c :: rest, acc => cstrScan rest (acc ++ [c])
  | [], _ => none

/-- re_cstring: `("(?:\\.|[^"\\])*")(.*)`; the first group includes the
surrounding quotes, the second stops at a newline. -/
def re_cstring_match (spec : Chars) : Option (Chars × Chars) :=
  match spec with
  | '"' :: rest =>
    match cstrScan rest [] with
    | some (body, after) => some ('"' :: body, after.takeWhile (fun c => c ≠ '\n'))
    | none => none
  | _ => none

/-- The single-character escapes of source unescape: index into the
replacement string by position in the escape-letter string. -/
def escMap (c : Char) : Option Char :=
  if c = 'a' then some '\x07'
  else if c = 'b' then some '\x08'
  else if c = 'f' then some '\x0c'
  else if c = 'n' then some '\n'
  else if c = 'r' then some '\x0d'
  else if c = 't' then some '\t'
  else if c = 'v' then some '\x0b'
  else if c = '\\' then some '\\'
  else if c = '"' then some '"'
  else none

/-- re_unescape.sub(unescape, s): scan left to right replacing each escape
`\[0-7]{1,3}`, `\x[0-9a-fA-F]+` or `\.`; a ValueError raised by unescape
(digits 8 or 9, a `\x` with no hex digits, or an unknown escape letter)
makes the whole substitution fail.  A backslash that no alternative can
match (one before a newline, or a trailing one) passes through unchanged,
although the callers here never produce such input because cstrScan
already rejects it. -/
def unescapeAllAux : Nat → Chars → Option Chars
  | _, [] => some []
  | fuel + 1, '\\' :: rest =>
    let octs := (rest.takeWhile isOctalCh).take 3
    if octs ≠ [] then
      (unescapeAllAux fuel (rest.drop octs.length)).map
        (fun t => Char.ofNat (natOfOctDigits octs % 256) :: t)
    else
      match rest with
      | 'x' :: r =>
        let hexs := r.takeWhile isHexCh
        if hexs = [] then none
        else (unescapeAllAux fuel (r.drop hexs.length)).map
          (fun t => Char.ofNat (natOfHexDigits hexs % 256) :: t)
      | c :: r =>
        if c = '\n' then (unescapeAllAux fuel (c :: r)).map (fun t => '\\' :: t)
        else match escMap c with
          | some e => (unescapeAllAux fuel r).map (fun t => e :: t)
          | none => none
      | [] => some ['\\']
  | fuel + 1, c :: rest => (unescapeAllAux fuel rest).map (fun t => c :: t)
  | 0, _ :: _ => none

def unescapeAll (s : Chars) : Option Chars := unescapeAllAux s.length s

/-- Source parse_c_name: match re_cstring, unescape the quoted group (which
keeps its quotes); on no match or a bad escape return (None, spec). -/
def parse_c_name (spec : Chars) : Option Chars × Chars :=
  match re_cstring_match spec with
  | none => (none, spec)
  | some (g1, g2) =>
    match unescapeAll g1 with
    | some s => (some s, g2)
    | none => (none, spec)

/-- The fallback split of parse_name: `(\S*)\s*(.*)`. -/
def fallbackSplit (spec : Chars) : Option Chars × Chars :=
  let g1 := spec.takeWhile (fun c => ¬ isPySpace c)
  let rest := (spec.drop g1.length).dropWhile isPySpace
  (some g1, rest.takeWhile (fun c => c ≠ '\n'))

/-- Source parse_name. -/
def parse_name (spec : Chars) (tabterm : Bool) : Option Chars × Chars :=
  let spec := pyLstrip spec
  if startswithFrom spec ['"'] 0 then parse_c_name spec
  else if tabterm then
    match re_tabterm_match spec with
    | some (g1, g2) => (some (pyRstrip g1), g2)
    | none => fallbackSplit spec
  else fallbackSplit spec

/-- re_gitindex: `[0-9a-f]+\.\.[0-9a-f]+(?:\s+(.*))?$` applied to the text
after `index `; `$` matches at the end or just before a final newline, and
the greedy optional group makes a bare `hash..hash` line followed only by
its newline yield an empty mode string rather than an absent one.  The
lines fed to this matcher contain at most one newline, at the very end. -/
def re_gitindex_match (s : Chars) : Option (Option Chars) :=
  let h1 := s.takeWhile isLowerHexCh
  if h1 = [] then none
  else
    let s1 := s.drop h1.length
    match dropLit ['.', '.'] s1 with
    | none => none
    | some s2 =>
      let h2 := s2.takeWhile isLowerHexCh
      if h2 = [] then none
      else
        let rest := s2.drop h2.length
        if rest = [] then some none
        else
          let w := rest.takeWhile isPySpace
          if w = [] then none
          else
            let t := (rest.drop w.length).takeWhile (fun c => c ≠ '\n')
            let rem := (rest.drop w.length).drop t.length
            if rem = [] ∨ rem = ['\n'] then some (some t) else none

/-!  The data model: Change, Hunk, FileInfo, Header, Patch. -/

/-- An atomic hunk line: operation character plus text payload. -/
structure Change where
  op : Char
  text : Chars
deriving DecidableEq, Repr

/-- A hunk.  Positions begin/end are line numbers (None until set); the
field named section in the source is called sect here because section is a
Lean keyword. -/
structure Hunk where
  srcline : Option Int := none
  dstline : Option Int := none
  sect : Option Chars := none
  src : List Change := []
  dst : List Change := []
  beginP : Option Int := none
  endP : Option Int := none
deriving DecidableEq, Repr

/-- The Python exceptions the parser can actually raise: NotImplementedError
from the context/new-context hunk stubs and the git-binary next_hunk, and
TypeError from the membership test on None in EdHunk.parse. -/
inductive PErr where
  | notImplemented
  | typeError
deriving DecidableEq, Repr

/-- The diff-type constants of the source. -/
inductive Dialect where
  | any
  | context
  | normal
  | ed
  | newContext
  | uni
  | gitBinary
deriving DecidableEq, Repr

/-- Per-side file metadata.  Timestamps are abstracted to naturals: the
external date collaborator (dateutil.parser.parse) is passed in as a
function dp returning some value on success and none on failure, and the
epoch timestamp installed for /dev/null is represented by 0. -/
structure FileInfo where
  name : Option Chars := none
  timestr : Option Chars := none
  stamp : Option Nat := none
  mode : Option Int := none
  copy : Bool := false
  rename : Bool := false
deriving DecidableEq, Repr

/-- FileInfo.set_name: a nonempty name equal to /dev/null collapses to None
and pins the stamp to the epoch. -/
def FileInfo.set_name (fi : FileInfo) (name : Option Chars) : FileInfo :=
  match name with
  | some n =>
    if n ≠ [] ∧ n = '/' :: 'd' :: 'e' :: 'v' :: '/' :: 'n' :: 'u' :: 'l' :: 'l' :: [] then
      { fi with name := none, stamp := some 0 }
    else { fi with name := some n }
  | none => { fi with name := none }

/-- FileInfo.set_timestr, parameterised by the date collaborator dp. -/
def FileInfo.set_timestr (dp : Chars → Option Nat) (fi : FileInfo) (t : Option Chars) :
    FileInfo :=
  match t with
  | none => { fi with timestr := none, stamp := none }
  | some ts =>
    if ts = [] then { fi with timestr := some ts, stamp := none }
    else
      let r := pyRstrip ts
      { fi with timestr := some r, stamp := dp r }

/-- FileInfo.set_spec: split a header suffix into name and timestamp. -/
def FileInfo.set_spec (dp : Chars → Option Nat) (fi : FileInfo) (spec : Chars) : FileInfo :=
  let (name, timestr) := parse_name spec true
  (fi.set_timestr dp (some timestr)).set_name name

/-- The value stored in Header.index: normally the index string, but when it
starts with a double quote the source stores the whole pair returned by
parse_c_name (a quirk kept faithfully). -/
inductive IndexVal where
  | str (s : Chars)
  | pair (name : Option Chars) (rest : Chars)
deriving DecidableEq, Repr

/-- A patch header. -/
structure HeaderR where
  old : FileInfo := {}
  new : FileInfo := {}
  index : Option IndexVal := none
  beginP : Option Int := none
  endP : Option Int := none
deriving DecidableEq, Repr

/-- A patch: dialect tag, header, hunks and stream positions.  The
constructor mirrors Patch.__init__, whose begin starts as header.begin. -/
structure PatchR where
  dialect : Dialect
  header : HeaderR
  hunks : List Hunk
  beginP : Option Int
  endP : Option Int
deriving DecidableEq, Repr

/-- Patch subclass constructors: XPatch(hdr) and the header-less forms. -/
def mkPatch (d : Dialect) (hdr : HeaderR) : PatchR :=
  { dialect := d, header := hdr, hunks := [], beginP := hdr.beginP, endP := none }

/-!  Hunk parsers.  Each parser mirrors the reader mutation of the source:
it returns the populated hunk (or none for "not a hunk") together with the
updated reader state, which even on failure reflects lines consumed. -/

/-- NormalHunk.parse: match the command line and record srcline and dstline.
The source computes the pattern and replacement line counts but consumes no
body lines and leaves src and dst untouched. -/
def NormalHunk_parse (hunk : Hunk) (st : RState) : Option Hunk × RState :=
  let (st1, ok) := get_line st true
  if ¬ ok then (none, st1)
  else match re_cmd_match st1.line with
    | none => (none, set_pos st1 (get_pos st1 (-1)))
    | some ⟨l1, l2, cmd, l3, _l4⟩ =>
      let _ptrn_lines : Int :=
        match l2 with
        | none => if cmd = 'a' then 0 else 1
        | some v => (v : Int) - l1 + 1
      (some { hunk with srcline := some (l1 : Int), dstline := some (l3 : Int) }, st1)

/-- The body loop of UniHunk.parse.  The counters are the remaining pattern
and replacement line counts; each round consumes one of them, so the loop
is structurally recursive on their sum.  On reader failure with fewer than
three replacement lines outstanding a blank context line is synthesised
(mail transport tolerance); the reader state advanced by the failed fetch
is kept, as in the source. -/
def uniHunkLoop : Nat → Nat → Nat → List Change → List Change → RState →
    Option (List Change × List Change) × RState
  | fuel, ptrn, repl, src, dst, st =>
    if ptrn = 0 ∧ repl = 0 then (some (src, dst), st)
    else match fuel with
    | 0 => (none, st)
    | fuel + 1 =>
      let (st1, ok) := get_line st true
      let lineOpt : Option Chars :=
        if ¬ ok ∨ st1.line.length < 1 then
          if repl < 3 then some [' ', '\n'] else none
        else some st1.line
      match lineOpt with
      | none => (none, st1)
      | some line =>
        match line with
        | [] => (none, st1)
        | ch :: rest =>
          if ch = '-' then
            if ptrn = 0 then (none, st1)
            else uniHunkLoop fuel (ptrn - 1) repl (src ++ [⟨ch, rest⟩]) dst st1
          else if ch = ' ' ∨ ch = '=' ∨ ch = '\t' ∨ ch = '\n' then
            if ptrn = 0 ∨ repl = 0 then (none, st1)
            else
              let change : Change :=
                if ch = '\t' ∨ ch = '\n' then ⟨' ', line⟩ else ⟨' ', rest⟩
              uniHunkLoop fuel (ptrn - 1) (repl - 1) (src ++ [change]) (dst ++ [change]) st1
          else if ch = '+' then
            if repl = 0 then (none, st1)
            else uniHunkLoop fuel ptrn (repl - 1) src (dst ++ [⟨ch, rest⟩]) st1
          else (none, st1)

/-- UniHunk.parse.  The fuel passed to the body loop is the sum of the two
declared counts: every round of the loop decrements that sum, so the
fuel-exhaustion branch is unreachable. -/
def UniHunk_parse (hunk : Hunk) (st : RState) : Option Hunk × RState :=
  let (st1, ok) := get_line st true
  if ¬ ok then (none, st1)
  else match re_unihunk_match st1.line with
    | none => (none, set_pos st1 (get_pos st1 (-1)))
    | some ⟨sNum, pOpt, dNum, rOpt, sect⟩ =>
      let beginP := get_pos st1 (-1)
      let ptrn := pOpt.getD 1
      let srcline : Int := if pOpt = some 0 then (sNum : Int) + 1 else sNum
      let repl := rOpt.getD 1
      let dstline : Int := if rOpt = some 0 then (dNum : Int) + 1 else dNum
      match uniHunkLoop (ptrn + repl) ptrn repl hunk.src hunk.dst st1 with
      | (none, st2) => (none, st2)
      | (some (src, dst), st2) =>
        (some { hunk with
            srcline := some srcline, dstline := some dstline, sect := sect,
            src := src, dst := dst,
            beginP := some beginP, endP := some (get_pos st2 (-1)) }, st2)

/-- The terminator-seeking loop of EdHunk.parse for the a/i/c commands:
fetch lines without comment skipping until one equals a lone dot line.
Fuel as in pget_line_loop: each round consumes at least one line. -/
def edHunkLoop : Nat → RState → Option Int × RState
  | 0, st => (none, st)
  | fuel + 1, st =>
    let (st1, ok) := get_line st false
    if ok then
      if st1.line = ['.', '\n'] then (some (get_pos st1 (-1)), st1)
      else edHunkLoop fuel st1
    else (none, st1)

/-- EdHunk.parse.  The source tests `edcmd in 'ds'`, a substring test, so
only the commands d and s (never the full token s/.//) take the single-line
branch; and when get_edcmd returns None the same test raises TypeError. -/
def EdHunk_parse (hunk : Hunk) (st : RState) : Except PErr (Option Hunk × RState) :=
  let (st1, ok) := get_line st true
  if ¬ ok then .ok (none, st1)
  else
    let beginP := get_pos st1 (-1)
    match get_edcmd st1.line with
    | none => .error .typeError
    | some edcmd =>
      if pyInStr edcmd ['d', 's'] then
        .ok (some { hunk with beginP := some beginP, endP := some beginP }, st1)
      else
        match edHunkLoop (st1.lines.length - st1.lineno + 1) st1 with
        | (some e, st2) =>
          .ok (some { hunk with beginP := some beginP, endP := some e }, st2)
        | (none, st2) => .ok (none, st2)

/-- next_hunk().parse(reader) for each dialect: the context and new-context
hunk parse methods raise NotImplementedError, and the git-binary next_hunk
itself raises it before any hunk is parsed.  The base Patch class is never
instantiated by the driver; its missing next_hunk would raise AttributeError,
modelled by the same error value. -/
def hunk_parse : Dialect → Hunk → RState → Except PErr (Option Hunk × RState)
  | .normal, h, st => .ok (NormalHunk_parse h st)
  | .ed, h, st => EdHunk_parse h st
  | .uni, h, st => .ok (UniHunk_parse h st)
  | .context, _, _ => .error .notImplemented
  | .newContext, _, _ => .error .notImplemented
  | .gitBinary, _, _ => .error .notImplemented
  | .any, _, _ => .error .notImplemented

/-- The hunk-accumulating loop of Patch.parse.  Fuel: every successful hunk
parse strictly advances the reader, so the line count bounds the number of
rounds; callers pass ample fuel. -/
def patchHunksLoop : Nat → Dialect → List Hunk → RState →
    Except PErr (List Hunk × RState)
  | 0, _, acc, st => .ok (acc, st)
  | fuel + 1, d, acc, st => do
    match ← hunk_parse d {} st with
    | (some h, st1) => patchHunksLoop fuel d (acc ++ [h]) st1
    | (none, st1) => .ok (acc, st1)

/-- Patch.parse: set begin if unset, collect hunks, set end. -/
def Patch_parse (fuel : Nat) (p : PatchR) (st : RState) :
    Except PErr (PatchR × RState) := do
  let beginP : Option Int :=
    match p.beginP with
    | none => some (get_pos st 0)
    | some b => some b
  let (hunks, st1) ← patchHunksLoop fuel p.dialect [] st
  .ok ({ p with beginP := beginP, hunks := hunks, endP := some (get_pos st1 (-1)) }, st1)

/-!  The PatchFile driver: add_patch scans raw lines accumulating header
state until a patch trigger fires, then rewinds and parses hunks. -/

/-- The quote-counting loop in the final else branch of add_patch:
`i = 0; while line.startswith("- ", i): i += 2`. -/
def dashCountAux : Chars → Nat → Nat
  | '-' :: ' ' :: rest, i => dashCountAux rest (i + 2)
  | _, i => i

def dashCount (line : Chars) : Nat := dashCountAux line 0

/-- Line ends in star-newline (re.search for a star then optional carriage
return then newline at the end), discriminating new-context from context. -/
def endsStarNl (l : Chars) : Bool :=
  List.isSuffixOf "*\n".data l ∨ List.isSuffixOf "*\r\n".data l

/-- The mutable locals of the add_patch scanning loop. -/
structure Scan where
  st : RState
  hdr : HeaderR
  edcmdpos : Option Int := none
  git_diff : Bool := false
  exthdrs : Bool := false
  needHeader : Bool
  revision : Option Chars
deriving Repr

/-- Result of one pass through the header-classification chain: either the
nested raw-line fetch failed (break out of the scanning loop), or the scan
continues with the possibly rebound current line and indent, and possibly a
patch decided by the chain itself. -/
inductive ChainRes where
  | brk (s : Scan)
  | cont (s : Scan) (line : Chars) (indent : Nat) (found : Option (PatchR × Int))

/-- The final else branch of the add_patch elif chain: RFC-934 quote
counting and the `--- ` old-file header line. -/
def apChainDash (dp : Chars → Option Nat) (s : Scan) (line : Chars) (indent : Nat)
    (strip_cr : Bool) (pos : Int) : ChainRes :=
  let i := dashCount line
  if startswithFrom line "--- ".data i then
    let beginP := if s.hdr.beginP = none then some (pos - 1) else s.hdr.beginP
    let old' := s.hdr.old.set_spec dp (line.drop (i + 4))
    let nesting := if old'.stamp ≠ none then i / 2 else s.st.rfc934_nesting
    .cont { s with
        hdr := { s.hdr with beginP := beginP, old := old' },
        st := { s.st with rfc934_nesting := nesting, strip_cr := strip_cr },
        needHeader := false }
      line indent none
  else .cont s line indent none

/-- The git-mode extended-header branches of the add_patch elif chain
(index, modes, rename, copy, GIT binary patch), falling through to the
final else branch. -/
def apChainGit (dp : Chars → Option Nat) (s : Scan) (line : Chars) (indent : Nat)
    (strip_cr : Bool) (pos : Int) : ChainRes :=
  if s.git_diff ∧ startswithFrom line "index ".data 0 then
    match re_gitindex_match (line.drop 6) with
    | some mode =>
      let hdr' := match mode with
        | some m =>
          { s.hdr with old := { s.hdr.old with mode := some (fetchmode m) },
                       new := { s.hdr.new with mode := some (fetchmode m) } }
        | none => s.hdr
      .cont { s with hdr := hdr', exthdrs := true } line indent none
    | none => .cont s line indent none
  else if s.git_diff ∧ startswithFrom line "old mode ".data 0 then
    .cont { s with
        hdr := { s.hdr with old := { s.hdr.old with mode := some (fetchmode (line.drop 9)) } },
        exthdrs := true } line indent none
  else if s.git_diff ∧ startswithFrom line "new mode ".data 0 then
    .cont { s with
        hdr := { s.hdr with new := { s.hdr.new with mode := some (fetchmode (line.drop 9)) } },
        exthdrs := true } line indent none
  else if s.git_diff ∧ startswithFrom line "deleted file mode ".data 0 then
    -- the source slices line[9:] here, not line[18:]
    .cont { s with
        hdr := { s.hdr with old := { s.hdr.old with mode := some (fetchmode (line.drop 9)) } },
        exthdrs := true } line indent none
  else if s.git_diff ∧ startswithFrom line "new file mode ".data 0 then
    .cont { s with
        hdr := { s.hdr with new := { s.hdr.new with mode := some (fetchmode (line.drop 14)) } },
        exthdrs := true } line indent none
  else if s.git_diff ∧ startswithFrom line "rename from ".data 0 then
    let hdr' := { s.hdr with old := { s.hdr.old with rename := true } }
    .cont { s with hdr := hdr', exthdrs := true } line indent none
  else if s.git_diff ∧ startswithFrom line "rename to ".data 0 then
    let hdr' := { s.hdr with new := { s.hdr.new with rename := true } }
    .cont { s with hdr := hdr', exthdrs := true } line indent none
  else if s.git_diff ∧ startswithFrom line "copy from ".data 0 then
    let hdr' := { s.hdr with old := { s.hdr.old with copy := true } }
    .cont { s with hdr := hdr', exthdrs := true } line indent none
  else if s.git_diff ∧ startswithFrom line "copy to ".data 0 then
    let hdr' := { s.hdr with new := { s.hdr.new with copy := true } }
    .cont { s with hdr := hdr', exthdrs := true } line indent none
  else if s.git_diff ∧ startswithFrom line "GIT binary patch".data 0 then
    let hdr' := { s.hdr with endP := some (pos - 2) }
    .cont { s with hdr := hdr' } line indent (some (mkPatch .gitBinary hdr', pos - 1))
  else apChainDash dp s line indent strip_cr pos

/-- The header-line branches of the add_patch elif chain (ed command note,
context and unified file headers, Index, Prereq, diff --git), falling
through to the git-mode branches. -/
def apChainHdr (dp : Chars → Option Nat) (dt : Dialect) (s : Scan) (line : Chars)
    (indent : Nat) (strip_cr : Bool) (pos : Int) : ChainRes :=
  if (dt = .any ∨ dt = .ed) ∧ ¬ s.needHeader ∧ s.edcmdpos = none ∧
      (get_edcmd line).isSome then
    .cont { s with
        edcmdpos := some (pos - 1),
        st := { s.st with indent := indent, strip_cr := strip_cr } }
      line indent none
  else if (dt = .any ∨ dt = .context ∨ dt = .newContext) ∧
      startswithFrom line "*** ".data 0 then
    let hdr' := { s.hdr with beginP := some (pos - 1), new := s.hdr.new.set_spec dp (line.drop 4) }
    .cont { s with hdr := hdr', needHeader := false } line indent none
  else if startswithFrom line "+++ ".data 0 then
    .cont { s with
        hdr := { s.hdr with new := s.hdr.new.set_spec dp (line.drop 4) },
        st := { s.st with strip_cr := strip_cr },
        needHeader := false }
      line indent none
  else if startswithFrom line "Index:".data 0 then
    let beginP := if s.hdr.beginP = none then some (pos - 1) else s.hdr.beginP
    let idx0 := pyLstrip (line.drop 6)
    let idx : IndexVal :=
      if startswithFrom idx0 "\"".data 0 then
        let pr := parse_c_name idx0
        IndexVal.pair pr.1 pr.2
      else IndexVal.str idx0
    .cont { s with
        hdr := { s.hdr with beginP := beginP, index := some idx },
        st := { s.st with strip_cr := strip_cr },
        needHeader := false }
      line indent none
  else if startswithFrom line "Prereq:".data 0 then
    let beginP := if s.hdr.beginP = none then some (pos - 1) else s.hdr.beginP
    let revisions := pySplitWs (pyLstrip (line.drop 7))
    let rev := match revisions with
      | r :: _ => some r
      | [] => s.revision
    .cont { s with hdr := { s.hdr with beginP := beginP }, revision := rev }
      line indent none
  else if (dt = .any ∨ dt = .uni) ∧ startswithFrom line "diff --git ".data 0 then
    if s.exthdrs then
      let hdr' := { s.hdr with endP := some (pos - 2) }
      .cont { s with hdr := hdr' } line indent (some (mkPatch .uni hdr', pos - 1))
    else
      let hdr1 := { s.hdr with beginP := some (pos - 1), old := { s.hdr.old with name := none }, new := { s.hdr.new with name := none } }
      let (old_name, s1) := parse_name (line.drop 11) false
      let hdr2 :=
        if old_name ≠ none ∧ s1 ≠ [] then
          let (new_name, s2) := parse_name (pyLstrip s1) false
          if pyIsSpaceStr s2 then
            { hdr1 with old := { hdr1.old with name := old_name }, new := { hdr1.new with name := new_name } }
          else hdr1
        else hdr1
      .cont { s with hdr := hdr2, git_diff := true, needHeader := false }
        line indent none
  else apChainGit dp s line indent strip_cr pos

/-- The big elif chain in the body of PatchFile.add_patch, classifying one
raw line.  The reader inside s has already had strip_indent applied.  The
chain is split into four functions (normal-trigger head, header lines,
git-mode lines, final else) purely to keep each case analysis small; read
in sequence they are the elif chain of the source. -/
def apChain (dp : Chars → Option Nat) (dt : Dialect) (s : Scan)
    (line : Chars) (indent : Nat) (strip_cr : Bool) : ChainRes :=
  let pos := get_pos s.st 0
  if (dt = .any ∨ dt = .normal) ∧ ¬ s.needHeader ∧ (re_cmd_match line).isSome then
    -- normal-diff trigger: set strip_cr, peek the next line
    let st' := { s.st with strip_cr := strip_cr }
    let (st1, ok) := get_raw_line st'
    if ¬ ok then .brk { s with st := st1 }
    else
      let (indent2, st2) := strip_indent st1
      let line2 := st2.line
      if startswithFrom line2 "< ".data 0 ∨ startswithFrom line2 "> ".data 0 then
        let start := get_pos st2 (-2)
        let st3 := { st2 with indent := indent2 }
        .cont { s with st := st3 } line2 indent2 (some (mkPatch .normal {}, start))
      else .cont { s with st := st2 } line2 indent2 none
  else apChainHdr dp dt s line indent strip_cr pos

/-- Result of the trigger checks at the bottom of the add_patch loop body. -/
inductive TrigRes where
  | brk (s : Scan)
  | done (s : Scan) (found : Option (PatchR × Int))

/-- The `if not need_header` trigger checks at the bottom of the add_patch
loop body: an ed terminator line, a unified hunk header, or a context
divider pair.  A patch decided here overwrites one decided by the chain. -/
def apTriggers (dt : Dialect) (s : Scan) (line : Chars) (indent : Nat)
    (strip_cr : Bool) : TrigRes :=
  if s.needHeader then .done s none
  else if s.edcmdpos.isSome ∧ line = ".\n".data then
    .done s (some (mkPatch .ed {}, s.edcmdpos.getD 0))
  else if (dt = .any ∨ dt = .uni) ∧ startswithFrom line "@@ -".data 0 then
    let hdr' := { s.hdr with endP := some (get_pos s.st (-2)) }
    let st' := { s.st with indent := indent }
    .done { s with st := st', hdr := hdr' }
      (some (mkPatch .uni hdr', get_pos s.st (-1)))
  else if (dt = .any ∨ dt = .context ∨ dt = .newContext) ∧
      startswithFrom line "********".data 0 then
    let previndent := indent
    let (st1, ok) := get_raw_line s.st
    if ¬ ok then .brk { s with st := st1 }
    else
      let (indent2, st2) := strip_indent st1
      let line2 := st2.line
      if previndent = indent2 ∧ startswithFrom line2 "*** ".data 0 then
        let hdr' := { s.hdr with old := s.hdr.new, new := s.hdr.old, endP := some (get_pos st2 (-2)) }
        let st3 := { st2 with indent := indent2, strip_cr := strip_cr }
        let d := if endsStarNl line2 then Dialect.newContext else Dialect.context
        .done { s with st := st3, hdr := hdr' }
          (some (mkPatch d hdr', get_pos st2 (-1)))
      else .done { s with st := st2 } none
  else .done s none

/-- The scanning loop of add_patch (`while patch is None and get_raw_line`).
Fuel: every round consumes at least one raw line. -/
def add_patch_scan (dp : Chars → Option Nat) (dt : Dialect) :
    Nat → Scan → Option (PatchR × Int) × Scan
  | 0, s => (none, s)
  | fuel + 1, s =>
    let (st1, ok) := get_raw_line s.st
    if ¬ ok then (none, { s with st := st1 })
    else
      let (indent, st2) := strip_indent st1
      let line := st2.line
      let strip_cr := takeLast2 line = "\r\n".data
      match apChain dp dt { s with st := st2 } line indent strip_cr with
      | .brk s1 => (none, s1)
      | .cont s1 line1 indent1 found1 =>
        match apTriggers dt s1 line1 indent1 strip_cr with
        | .brk s2 => (none, s2)
        | .done s2 found2 =>
          match found2 with
          | some f => (some f, s2)
          | none =>
            match found1 with
            | some f => (some f, s2)
            | none => add_patch_scan dp dt fuel s2

/-- The patch-is-None fallbacks of PatchFile.add_patch after the scanning
loop: a noted ed command position, or dangling extended git headers. -/
def add_patch_found2 (found : Option (PatchR × Int)) (s1 : Scan) :
    Option (PatchR × Int) :=
  match found with
  | some pr => some pr
  | none =>
    match s1.edcmdpos with
    | some e => some (mkPatch .ed {}, e)
    | none =>
      if s1.exthdrs then
        let hdr := { s1.hdr with endP := some (get_pos s1.st (-1)) }
        some (mkPatch .uni hdr, get_pos s1.st 0)
      else none

/-- The rewind-and-parse tail of PatchFile.add_patch following the fallbacks. -/
def add_patch_finish (fuel : Nat) (found : Option (PatchR × Int)) (s1 : Scan) :
    Except PErr (Option (PatchR × Int) × RState × Option Chars) :=
  match add_patch_found2 found s1 with
  | none => .ok (none, s1.st, s1.revision)
  | some (p, start) => do
    let st2 := set_pos s1.st start
    let (p1, st3) ← Patch_parse fuel p st2
    .ok (some (p1, get_pos st3 (-1)), st3, s1.revision)

/-- The scanning-loop entry state of PatchFile.add_patch: initialised
locals with the reader rfc934_nesting reset.  Ed and normal format patches
have no filename headers. -/
def add_patch_start (dt : Dialect) (needHeaderArg : Bool) (st : RState)
    (revision : Option Chars) : Scan :=
  { st := { st with rfc934_nesting := 0 }, hdr := {},
    needHeader := if dt = .ed ∨ dt = .normal then false else needHeaderArg,
    revision := revision }

/-- PatchFile.add_patch.  Returns either None (no more patches) or the
parsed patch together with the value stored into self.end, plus the reader
state and the possibly-updated Prereq revision. -/
def add_patch (dp : Chars → Option Nat) (dt : Dialect) (needHeaderArg : Bool)
    (fuel : Nat) (st : RState) (revision : Option Chars) :
    Except PErr (Option (PatchR × Int) × RState × Option Chars) :=
  let out := add_patch_scan dp dt fuel (add_patch_start dt needHeaderArg st revision)
  add_patch_finish fuel out.1 out.2

/-- The result of PatchFile.__init__: the preamble line list, the patches
in stream order, the final self.end and the Prereq revision. -/
structure PF where
  header : List Chars
  patches : List PatchR
  endP : Option Int
  revision : Option Chars
deriving Repr

/-- The `while self.add_patch(...)` loop of PatchFile.__init__, materialising
the FileHeader from the raw range up to the first patch header begin on the
first success. -/
def PatchFile_loop (dp : Chars → Option Nat) (dt : Dialect) (needH : Bool)
    (startpos : Int) :
    Nat → RState → List PatchR → Option (List Chars) → Option Int → Option Chars →
    Except PErr (RState × List PatchR × Option (List Chars) × Option Int × Option Chars)
  | 0, st, patches, header, endP, rev => .ok (st, patches, header, endP, rev)
  | fuel + 1, st, patches, header, endP, rev => do
    match ← add_patch dp dt needH fuel st rev with
    | (none, st1, rev1) => .ok (st1, patches, header, endP, rev1)
    | (some (p, e), st1, rev1) =>
      let header1 := match header with
        | some h => some h
        | none => some (get_raw_lines st1 startpos p.header.beginP)
      PatchFile_loop dp dt needH startpos fuel st1 (patches ++ [p]) header1 (some e) rev1

/-- PatchFile.__init__ over a reader state. -/
def PatchFile_init (dp : Chars → Option Nat) (dt : Dialect) (needH : Bool)
    (fuel : Nat) (st : RState) : Except PErr PF := do
  let startpos := get_pos st 0
  let (st1, patches, header?, endP, rev) ←
    PatchFile_loop dp dt needH startpos fuel st [] none none none
  let header := match header? with
    | some h => h
    | none => get_raw_lines st1 startpos none
  .ok { header := header, patches := patches, endP := endP, revision := rev }

/-!  The stream reader (class FileReader).  The underlying file is
abstracted as its list of lines together with a read position: every byte
offset the reader ever stores (f.tell values) or seeks to (entries of
line2pos) is the start of a line, so offsets are represented by line
indices.  line2pos is kept as explicit state exactly as in the source. -/

structure FRState where
  flines : List Chars
  fpos : Nat
  lineno : Nat
  line2pos : List Nat
deriving DecidableEq, Repr

/-- FileReader.set(f) on a freshly opened file: lineno 0 and
line2pos = [f.tell()] = [0]. -/
def FRState.init (flines : List Chars) : FRState :=
  { flines := flines, fpos := 0, lineno := 0, line2pos := [0] }

/-- FileReader._get_line: f.readline, returning None for an empty read at
EOF, advancing lineno and extending the line-to-offset index with f.tell()
when this line had not been visited before. -/
def FR_get_line (s : FRState) : Option (Chars × FRState) :=
  match s.flines.get? s.fpos with
  | none => none
  | some l =>
    let fpos := s.fpos + 1
    let lineno := s.lineno + 1
    let l2p := if s.line2pos.length ≤ lineno then s.line2pos ++ [fpos] else s.line2pos
    some (l, { s with fpos := fpos, lineno := lineno, line2pos := l2p })

/-- FileReader.get_pos. -/
def FR_get_pos (s : FRState) : Nat := s.lineno

/-- FileReader.set_pos: seek to the stored offset of the given line.  The
source indexes line2pos directly (an IndexError if the position was never
visited); callers only restore previously seen positions. -/
def FR_set_pos (s : FRState) (p : Nat) : FRState :=
  { s with fpos := s.line2pos.getD p 0, lineno := p }

theorem FR_get_line_some {s : FRState} {l : Chars} {s' : FRState}
    (h : FR_get_line s = some (l, s')) :
    s'.flines = s.flines ∧ s'.fpos = s.fpos + 1 ∧ s.fpos < s.flines.length := by
  unfold FR_get_line at h
  cases hg : s.flines.get? s.fpos with
  | none => rw [hg] at h; cases h
  | some v =>
    rw [hg] at h
    simp only at h
    cases h
    exact ⟨rfl, rfl, (List.get?_eq_some.mp hg).1⟩

/-- The copying loop of FileReader.get_raw_lines: read lines until the line
number reaches the requested end (or EOF). -/
def FR_raw_loop : Nat → FRState → Option Nat → List Chars → List Chars × FRState
  | fuel, s, endP, acc =>
    if endP = some s.lineno then (acc, s)
    else match FR_get_line s with
      | none => (acc, s)
      | some (l, s1) =>
        match fuel with
        | 0 => (acc, s)
        | fuel + 1 => FR_raw_loop fuel s1 endP (acc ++ [l])

/-- FileReader.get_raw_lines: save the position, seek to start, copy lines
until end, and restore the position.  The fuel given to the loop (remaining
lines plus one) always exceeds the number of reads, so its exhaustion
branch is unreachable. -/
def FR_get_raw_lines (s : FRState) (start : Nat) (endP : Option Nat) :
    List Chars × FRState :=
  let oldpos := FR_get_pos s
  let s1 := FR_set_pos s start
  let (ls, s2) := FR_raw_loop (s1.flines.length - s1.fpos + 1) s1 endP []
  (ls, FR_set_pos s2 oldpos)

/-!  Theorems.  Shared fixtures first: concrete date collaborators used to
instantiate the dp parameter in closed evaluations. -/

/-- A date collaborator that fails on every string. -/
def dpNone : Chars → Option Nat := fun _ => none

/-- A date collaborator succeeding exactly on the two timestamps of the
unified hello-world scenario. -/
def dpScen : Chars → Option Nat := fun s =>
  if s = "2020-01-01 00:00:00".data then some 1
  else if s = "2020-01-01 00:00:01".data then some 2
  else none

/-- Length and line-preservation invariant of the UniHunk body loop: a
successful run appends exactly ptrn changes to src and repl changes to dst,
and the reader line list is never altered (for any fuel). -/
theorem uniHunkLoop_spec (fuel : Nat) : ∀ ptrn repl src dst st res st',
    uniHunkLoop fuel ptrn repl src dst st = (res, st') →
    st'.lines = st.lines ∧
    (∀ a b, res = some (a, b) → a.length = src.length + ptrn ∧ b.length = dst.length + repl) := by
  induction fuel with
  | zero =>
    intro ptrn repl src dst st res st' heq
    rw [uniHunkLoop] at heq
    by_cases hz : ptrn = 0 ∧ repl = 0
    · rw [if_pos hz] at heq
      cases heq
      exact ⟨rfl, by intro a b hab; cases hab; simp [hz.1, hz.2]⟩
    · rw [if_neg hz] at heq
      cases heq
      exact ⟨rfl, by intro a b hab; cases hab⟩
  | succ n ih =>
    intro ptrn repl src dst st res st' heq
    rw [uniHunkLoop] at heq
    by_cases hz : ptrn = 0 ∧ repl = 0
    · rw [if_pos hz] at heq
      cases heq
      exact ⟨rfl, by intro a b hab; cases hab; simp [hz.1, hz.2]⟩
    · rw [if_neg hz] at heq
      rcases hget : get_line st true with ⟨st1, ok⟩
      rw [hget] at heq
      have hl1 : st1.lines = st.lines := by
        have := pget_line_lines st st.indent st.rfc934_nesting st.strip_cr true
        rw [show pget_line st st.indent st.rfc934_nesting st.strip_cr true = (st1, ok) from hget] at this
        exact this
      simp only at heq
      split at heq
      · -- lineOpt = none: failure with reader st1
        cases heq
        exact ⟨hl1, by intro a b hab; cases hab⟩
      · rename_i line hline
        -- lineOpt = some line; case on the line itself
        match line, heq with
        | [], heq =>
          cases heq
          exact ⟨hl1, by intro a b hab; cases hab⟩
        | ch :: rest, heq =>
          simp only at heq
          split at heq
          · -- ch is a dash
            split at heq
            · cases heq; exact ⟨hl1, by intro a b hab; cases hab⟩
            · rename_i hpz
              obtain ⟨ha, hb⟩ := ih (ptrn - 1) repl (src ++ [⟨ch, rest⟩]) dst st1 res st' heq
              refine ⟨ha.trans hl1, ?_⟩
              intro a b hab
              obtain ⟨h1, h2⟩ := hb a b hab
              simp only [List.length_append, List.length_cons, List.length_nil] at h1 h2 ⊢
              omega
          · split at heq
            · -- context-class character
              split at heq
              · cases heq; exact ⟨hl1, by intro a b hab; cases hab⟩
              · rename_i hpz
                obtain ⟨ha, hb⟩ := ih (ptrn - 1) (repl - 1) _ _ st1 res st' heq
                refine ⟨ha.trans hl1, ?_⟩
                intro a b hab
                obtain ⟨h1, h2⟩ := hb a b hab
                simp only [List.length_append, List.length_cons, List.length_nil] at h1 h2 ⊢
                omega
            · split at heq
              · -- plus character
                split at heq
                · cases heq; exact ⟨hl1, by intro a b hab; cases hab⟩
                · rename_i hrz
                  obtain ⟨ha, hb⟩ := ih ptrn (repl - 1) src (dst ++ [⟨ch, rest⟩]) st1 res st' heq
                  refine ⟨ha.trans hl1, ?_⟩
                  intro a b hab
                  obtain ⟨h1, h2⟩ := hb a b hab
                  simp only [List.length_append, List.length_cons, List.length_nil] at h1 h2 ⊢
                  omega
              · cases heq; exact ⟨hl1, by intro a b hab; cases hab⟩

/-- C1.  For every unified hunk accepted by UniHunk.parse starting from a
fresh hunk (as created by UniPatch.next_hunk), the number of Change entries
in src equals the declared pattern count (1 when omitted) and the number in
dst equals the declared replacement count (1 when omitted); this covers the
runs in which the mail-transport tolerance synthesises blank context
lines, which decrement both counters like any other context line. -/
theorem C1_uniHunk_counts (st st1 : RState) (S : Nat) (p : Option Nat) (D : Nat)
    (r : Option Nat) (sec : Option Chars) (hunk h : Hunk) (st' : RState)
    (hsrc : hunk.src = []) (hdst : hunk.dst = [])
    (hget : get_line st true = (st1, true))
    (hm : re_unihunk_match st1.line = some ⟨S, p, D, r, sec⟩)
    (hp : UniHunk_parse hunk st = (some h, st')) :
    h.src.length = p.getD 1 ∧ h.dst.length = r.getD 1 := by
  unfold UniHunk_parse at hp
  rw [hget] at hp
  simp only [hm, hsrc, hdst, Bool.not_true, not_true, if_false] at hp
  rcases hloop : uniHunkLoop (p.getD 1 + r.getD 1) (p.getD 1) (r.getD 1) [] [] st1 with ⟨res, st2⟩
  rw [hloop] at hp
  cases res with
  | none => simp at hp
  | some ab =>
    obtain ⟨a, b⟩ := ab
    simp only [not_true, if_false, Prod.mk.injEq, Option.some.injEq] at hp
    obtain ⟨hh, -⟩ := hp
    subst hh
    obtain ⟨-, hlen⟩ :=
      uniHunkLoop_spec (p.getD 1 + r.getD 1) (p.getD 1) (r.getD 1) [] [] st1 (some (a, b))
        st2 hloop
    obtain ⟨h1, h2⟩ := hlen a b rfl
    simp only [List.length_nil, Nat.zero_add] at h1 h2
    simpa using ⟨h1, h2⟩

/-- The reader of the C1 witness input, one body line short of its declared
counts so that the run exercises the blank-line synthesis tolerance. -/
def c1reader : RState := LineReader.init ["@@ -1,2 +1,2 @@\n".data, " a\n".data]

/-- The reader state after fetching the hunk header line of the C1 witness. -/
def c1mid : RState :=
  { lines := c1reader.lines, lineno := 1, line := "@@ -1,2 +1,2 @@\n".data,
    tab_size := 8, indent := 0, rfc934_nesting := 0, strip_cr := false }

/-- The hunk produced on the C1 witness input. -/
def c1hunk : Hunk :=
  { srcline := some 1, dstline := some 1, sect := none,
    src := [⟨' ', "a\n".data⟩, ⟨' ', "\n".data⟩],
    dst := [⟨' ', "a\n".data⟩, ⟨' ', "\n".data⟩],
    beginP := some 0, endP := some 1 }

/-- The final reader state on the C1 witness input. -/
def c1fin : RState :=
  { lines := c1reader.lines, lineno := 2, line := " a\n".data,
    tab_size := 8, indent := 0, rfc934_nesting := 0, strip_cr := false }

/-- C1 witness: the count invariant at a concrete accepted hunk (whose run
synthesises one blank context line). -/
theorem C1_uniHunk_counts_witness :
    get_line c1reader true = (c1mid, true) ∧
    re_unihunk_match c1mid.line = some ⟨1, some 2, 1, some 2, none⟩ ∧
    UniHunk_parse {} c1reader = (some c1hunk, c1fin) ∧
    c1hunk.src.length = 2 ∧ c1hunk.dst.length = 2 := by
  refine ⟨by decide, by decide, by decide, ?_⟩
  exact C1_uniHunk_counts c1reader c1mid 1 (some 2) 1 (some 2) none {} c1hunk c1fin
    rfl rfl (by decide) (by decide) (by decide)

/-- The reader of the append-mode C2 input. -/
def c2reader : RState :=
  LineReader.init ["@@ -0,0 +1,3 @@\n".data, "+a\n".data, "+b\n".data, "+c\n".data]

/-- The reader state after fetching the append-mode hunk header line. -/
def c2mid : RState :=
  { lines := c2reader.lines, lineno := 1, line := "@@ -0,0 +1,3 @@\n".data,
    tab_size := 8, indent := 0, rfc934_nesting := 0, strip_cr := false }

/-- The hunk produced on the append-mode input. -/
def c2hunk : Hunk :=
  { srcline := some 1, dstline := some 1, sect := none, src := [],
    dst := [⟨'+', "a\n".data⟩, ⟨'+', "b\n".data⟩, ⟨'+', "c\n".data⟩],
    beginP := some 0, endP := some 3 }

/-- The final reader state on the append-mode input. -/
def c2fin : RState :=
  { lines := c2reader.lines, lineno := 4, line := "+c\n".data,
    tab_size := 8, indent := 0, rfc934_nesting := 0, strip_cr := false }

set_option maxHeartbeats 4000000 in
/-- C2.  UniHunk.parse derives srcline from the declared S by adding one
exactly when the declared pattern count is zero, and likewise dstline from
D when the declared replacement count is zero (omitted counts default to 1
and trigger no adjustment); concretely, the append-mode header
line @@ -0,0 +1,3 @@ yields srcline 1 and dstline 1 and a body of three
plus lines parses successfully. -/
theorem C2_uniHunk_header :
    (∀ st st1 S p D r sec hunk h st',
        get_line st true = (st1, true) →
        re_unihunk_match st1.line = some ⟨S, p, D, r, sec⟩ →
        UniHunk_parse hunk st = (some h, st') →
        h.srcline = some (if p = some 0 then (S : Int) + 1 else (S : Int)) ∧
        h.dstline = some (if r = some 0 then (D : Int) + 1 else (D : Int))) ∧
    UniHunk_parse {} c2reader = (some c2hunk, c2fin) := by
  constructor
  · intro st st1 S p D r sec hunk h st' hget hm hp
    unfold UniHunk_parse at hp
    rw [hget] at hp
    simp only [hm, Bool.not_true, not_true, if_false] at hp
    rcases hloop : uniHunkLoop (p.getD 1 + r.getD 1) (p.getD 1) (r.getD 1) hunk.src hunk.dst st1
      with ⟨res, st2⟩
    rw [hloop] at hp
    cases res with
    | none => simp at hp
    | some ab =>
      obtain ⟨a, b⟩ := ab
      simp only [not_true, if_false, Prod.mk.injEq, Option.some.injEq] at hp
      obtain ⟨hh, -⟩ := hp
      subst hh
      exact ⟨rfl, rfl⟩
  · decide

set_option maxHeartbeats 4000000 in
/-- C2 witness: the hypotheses and conclusion of the quantified part at the
append-mode input. -/
theorem C2_uniHunk_header_witness :
    get_line c2reader true = (c2mid, true) ∧
    re_unihunk_match c2mid.line = some ⟨0, some 0, 1, some 3, none⟩ ∧
    UniHunk_parse {} c2reader = (some c2hunk, c2fin) ∧
    c2hunk.srcline = some 1 ∧ c2hunk.dstline = some 1 := by
  have h := C2_uniHunk_header.1 c2reader c2mid 0 (some 0) 1 (some 3) none {} c2hunk c2fin
    (by decide) (by decide) (by decide)
  exact ⟨by decide, by decide, by decide, by rw [h.1]; decide, by rw [h.2]; decide⟩

/-- C3 counterexample.  EdHunk.parse, called at a candidate hunk start (a
valid ed append command) whose body never terminates, returns "not a hunk"
with the reader left at position 2 instead of restored to the initial
position 0: the backtracking half of the contract fails. -/
theorem C3_counterexample :
    (EdHunk_parse {} (LineReader.init ["3a\n".data, "foo\n".data])).toOption.map
      (fun r => (r.1, r.2.lineno)) = some (none, 2) ∧ (2 : Nat) ≠ 0 := by
  decide

/-- C3 amended.  UniHunk.parse and NormalHunk.parse restore the reader only
in the pattern-mismatch case, and only by one line: when the fetch consumed
exactly one line (no comments skipped) and the regex does not match, the
parser returns "not a hunk" with the position restored; on other failures
(end of input, truncation, comment skipping, a failed ed body) the consumed
lines stay consumed. -/
theorem C3_backtrack_amended : ∀ (st st1 : RState) (hunk : Hunk),
    get_line st true = (st1, true) →
    st1.lineno = st.lineno + 1 →
    ((re_unihunk_match st1.line = none →
        (UniHunk_parse hunk st).1 = none ∧ (UniHunk_parse hunk st).2.lineno = st.lineno) ∧
     (re_cmd_match st1.line = none →
        (NormalHunk_parse hunk st).1 = none ∧ (NormalHunk_parse hunk st).2.lineno = st.lineno)) := by
  intro st st1 hunk hget hone
  constructor
  · intro hm
    have hred : UniHunk_parse hunk st = (none, set_pos st1 (get_pos st1 (-1))) := by
      unfold UniHunk_parse
      rw [hget]
      simp [hm]
    rw [hred]
    refine ⟨rfl, ?_⟩
    simp only [set_pos, get_pos, hone]
    omega
  · intro hm
    have hred : NormalHunk_parse hunk st = (none, set_pos st1 (get_pos st1 (-1))) := by
      unfold NormalHunk_parse
      rw [hget]
      simp [hm]
    rw [hred]
    refine ⟨rfl, ?_⟩
    simp only [set_pos, get_pos, hone]
    omega

/-- The reader state after fetching the single line of the C3 witness. -/
def c3mid : RState :=
  { lines := ["xyz\n".data], lineno := 1, line := "xyz\n".data,
    tab_size := 8, indent := 0, rfc934_nesting := 0, strip_cr := false }

/-- C3 witness: hypotheses and conclusions of the amended statement at a
concrete non-matching line. -/
theorem C3_backtrack_amended_witness :
    get_line (LineReader.init ["xyz\n".data]) true = (c3mid, true) ∧
    c3mid.lineno = (LineReader.init ["xyz\n".data]).lineno + 1 ∧
    re_unihunk_match c3mid.line = none ∧ re_cmd_match c3mid.line = none ∧
    (UniHunk_parse {} (LineReader.init ["xyz\n".data])).1 = none ∧
    (UniHunk_parse {} (LineReader.init ["xyz\n".data])).2.lineno = 0 ∧
    (NormalHunk_parse {} (LineReader.init ["xyz\n".data])).1 = none ∧
    (NormalHunk_parse {} (LineReader.init ["xyz\n".data])).2.lineno = 0 := by
  have h := C3_backtrack_amended (LineReader.init ["xyz\n".data]) c3mid {}
    (by decide) (by decide)
  obtain ⟨h1, h2⟩ := h.1 (by decide)
  obtain ⟨h3, h4⟩ := h.2 (by decide)
  exact ⟨by decide, by decide, by decide, by decide, h1, h2, h3, h4⟩

/-- C6 evaluated at the failing input.  get_edcmd recognises the
substitute command token, but the membership test the source performs is a
substring test against the two-character string ds, which the five
character token fails; the command is therefore treated as a multi-line
hunk: at end of input the parse fails outright, and with a terminating dot
line it consumes through that line (endP 1) instead of ending at the
command line itself. -/
theorem C6_edHunk_subst_eval :
    get_edcmd "2s/.//\n".data = some "s/.//".data ∧
    pyInStr "s/.//".data "ds".data = false ∧
    pyInStr "d".data "ds".data = true ∧
    (EdHunk_parse {} (LineReader.init ["2s/.//\n".data])).toOption.map (fun r => r.1) =
      some none ∧
    (EdHunk_parse {} (LineReader.init ["2s/.//\n".data, ".\n".data])).toOption.map
      (fun r => r.1.map (fun hk => (hk.beginP, hk.endP))) = some (some (some 0, some 1)) := by
  decide

/-- The normal-diff scenario input. -/
def c7lines : List Chars :=
  ["2,3c2,3\n".data, "< old1\n".data, "< old2\n".data, "---\n".data,
   "> new1\n".data, "> new2\n".data]

/-- C7 counterexample.  On the normal-diff scenario NormalHunk.parse
accepts the command line but consumes none of the six body lines: src and
dst stay empty and the reader stops right after the command line. -/
theorem C7_counterexample :
    (NormalHunk_parse {} (LineReader.init c7lines)).1 =
      some { srcline := some 2, dstline := some 2, sect := none, src := [], dst := [],
             beginP := none, endP := none } ∧
    (NormalHunk_parse {} (LineReader.init c7lines)).2.lineno = 1 := by
  decide

/-- C7 amended.  NormalHunk.parse matches the command line and records
srcline = L1 and dstline = L3 (computing but discarding the pattern and
replacement counts), consuming no body lines: src and dst are left
untouched and the reader stays just past the command line. -/
theorem C7_normal_recognition_only : ∀ (st st1 : RState) (hunk : Hunk) (g : CmdGroups),
    get_line st true = (st1, true) →
    re_cmd_match st1.line = some g →
    NormalHunk_parse hunk st =
      (some { hunk with srcline := some (g.l1 : Int), dstline := some (g.l3 : Int) }, st1) := by
  intro st st1 hunk g hget hm
  unfold NormalHunk_parse
  rw [hget]
  simp [hm]

/-- The reader state after fetching the command line of the C7 input. -/
def c7mid : RState :=
  { lines := c7lines, lineno := 1, line := "2,3c2,3\n".data,
    tab_size := 8, indent := 0, rfc934_nesting := 0, strip_cr := false }

/-- C7 witness: the amended statement at the normal-diff scenario input. -/
theorem C7_normal_recognition_only_witness :
    get_line (LineReader.init c7lines) true = (c7mid, true) ∧
    re_cmd_match c7mid.line = some ⟨2, some 3, 'c', 2, some 3⟩ ∧
    NormalHunk_parse {} (LineReader.init c7lines) =
      (some { srcline := some 2, dstline := some 2, sect := none, src := [], dst := [],
              beginP := none, endP := none }, c7mid) := by
  refine ⟨by decide, by decide, ?_⟩
  exact C7_normal_recognition_only (LineReader.init c7lines) c7mid {} ⟨2, some 3, 'c', 2, some 3⟩
    (by decide) (by decide)

theorem _get_line_get (st : RState) (l : Chars) (st' : RState)
    (h : _get_line st = some (l, st')) : st.lines.get? st.lineno = some l := by
  unfold _get_line at h
  split at h
  · cases h
    exact List.get?_eq_get _
  · cases h

/-- The fetch loop only reports success when the line it settled on (the
first non-comment line) ends in a newline. -/
theorem pget_line_loop_newline (fuel : Nat) : ∀ (st : RState) (indent nesting : Nat)
    (cr sc : Bool) (st' : RState),
    pget_line_loop fuel st indent nesting cr sc = (st', true) →
    ∃ l, st.lines.get? (st'.lineno - 1) = some l ∧ endsWithNl l = true := by
  induction fuel with
  | zero =>
    intro st indent nesting cr sc st' hs
    rw [pget_line_loop] at hs
    cases hs
  | succ fuel ih =>
    intro st indent nesting cr sc st' hs
    rw [pget_line_loop] at hs
    cases heq : _get_line st with
    | none => rw [heq] at hs; cases hs
    | some p =>
      obtain ⟨line, st1⟩ := p
      rw [heq] at hs
      obtain ⟨h1, h2, h3⟩ := _get_line_some heq
      simp only at hs
      split at hs
      · obtain ⟨l, hl, hnl⟩ := ih st1 indent nesting cr sc st' hs
        rw [h1] at hl
        exact ⟨l, hl, hnl⟩
      · split at hs
        · cases hs
        · rename_i hnl
          have hnl' : endsWithNl line = true := by
            by_contra hc
            simp [hc] at hnl
          have hidx := _get_line_get st line st1 heq
          split at hs <;>
          · cases hs
            refine ⟨line, ?_, hnl'⟩
            show st.lines.get? (st1.lineno - 1) = some line
            rw [h2]
            simpa using hidx

/-- C8.  Reader.pget_line (hence Reader.get_line) reports failure whenever
the non-comment line it fetches does not end in a newline: stated in
contrapositive form, any successful fetch has its consumed line (the one
just before the final position) ending in a newline, for every reader state
and mode settings. -/
theorem C8_truncation_guard (st : RState) (indent nesting : Nat) (cr sc : Bool)
    (st' : RState)
    (hs : pget_line st indent nesting cr sc = (st', true)) :
    ∃ l, st.lines.get? (st'.lineno - 1) = some l ∧ endsWithNl l = true :=
  pget_line_loop_newline _ st indent nesting cr sc st' hs

/-- C8 witness: the guard at a concrete two-line input whose first line is
a skipped comment. -/
theorem C8_truncation_guard_witness :
    pget_line (LineReader.init ["# c\n".data, "ok\n".data]) 0 0 false true =
      ({ lines := ["# c\n".data, "ok\n".data], lineno := 2, line := "ok\n".data,
         tab_size := 8, indent := 0, rfc934_nesting := 0, strip_cr := false }, true) ∧
    (∃ l, (LineReader.init ["# c\n".data, "ok\n".data]).lines.get?
        (({ lines := ["# c\n".data, "ok\n".data], lineno := 2, line := "ok\n".data,
            tab_size := 8, indent := 0, rfc934_nesting := 0,
            strip_cr := false } : RState).lineno - 1) = some l ∧ endsWithNl l = true) := by
  refine ⟨by decide, ?_⟩
  exact C8_truncation_guard (LineReader.init ["# c\n".data, "ok\n".data]) 0 0 false true
    _ (by decide)

theorem range_getD (m i : Nat) (h : i < m) : (List.range m).getD i 0 = i := by
  simp [List.getD, List.getElem?_range h]

theorem FR_get_line_get? (s : FRState) (l : Chars) (s1 : FRState)
    (h : FR_get_line s = some (l, s1)) : s.flines.get? s.fpos = some l := by
  unfold FR_get_line at h
  cases hg : s.flines.get? s.fpos with
  | none => rw [hg] at h; cases h
  | some v => rw [hg] at h; simp only at h; cases h; rfl

/-- The segment of the file that the get_raw_lines loop copies, starting at
the current line number: up to the requested end line (slice semantics) or
to the end of the file when no end is given. -/
def frSegment (flines : List Chars) (from_ : Nat) (e : Option Nat) : List Chars :=
  match e with
  | none => flines.drop from_
  | some ev => (flines.drop from_).take (ev - from_)

/-- Invariant of the get_raw_lines copying loop: starting from a
well-formed reader state (offset at the current line, the index a range,
the line number inside the index), it returns exactly the requested
segment appended to the accumulator, keeps the file and the index
range-shaped, and never shrinks the index. -/
theorem FR_raw_loop_go (fuel : Nat) : ∀ (s : FRState) (e : Option Nat) (acc : List Chars),
    s.flines.length - s.fpos < fuel →
    s.fpos = s.lineno →
    s.line2pos = List.range s.line2pos.length →
    s.lineno < s.line2pos.length →
    (∀ ev, e = some ev → s.lineno ≤ ev) →
    ∃ s2, FR_raw_loop fuel s e acc = (acc ++ frSegment s.flines s.lineno e, s2) ∧
      s2.flines = s.flines ∧
      s2.line2pos = List.range s2.line2pos.length ∧
      s.line2pos.length ≤ s2.line2pos.length := by
  induction fuel with
  | zero =>
    intro s e acc hfuel
    omega
  | succ fuel ih =>
    intro s e acc hfuel hfp hrange hlt he
    rw [FR_raw_loop]
    by_cases hstop : e = some s.lineno
    · rw [if_pos hstop]
      refine ⟨s, ?_, rfl, hrange, le_refl _⟩
      subst hstop
      simp [frSegment]
    · rw [if_neg hstop]
      rcases hg : FR_get_line s with - | ⟨l, s1⟩
      · refine ⟨s, ?_, rfl, hrange, le_refl _⟩
        have hend : s.flines.length ≤ s.fpos := by
          unfold FR_get_line at hg
          cases hg2 : s.flines.get? s.fpos with
          | none => exact le_of_not_lt (fun hc => by
              rw [List.get?_eq_get hc] at hg2; cases hg2)
          | some v => rw [hg2] at hg; simp at hg
        have hdrop : s.flines.drop s.lineno = [] := by
          apply List.drop_eq_nil_of_le
          omega
        cases e with
        | none => simp [frSegment, hdrop]
        | some ev => simp [frSegment, hdrop]
      · obtain ⟨hf1, hp1, hlt1⟩ := FR_get_line_some hg
        have hget := FR_get_line_get? s l s1 hg
        have hl1 : s1.lineno = s.lineno + 1 := by
          unfold FR_get_line at hg
          rw [List.get?_eq_get hlt1] at hg
          simp only at hg
          cases hg
          rfl
        have hl2p : s1.line2pos =
            (if s.line2pos.length ≤ s.lineno + 1 then s.line2pos ++ [s.fpos + 1]
             else s.line2pos) := by
          unfold FR_get_line at hg
          rw [List.get?_eq_get hlt1] at hg
          simp only at hg
          cases hg
          rfl
        -- the invariant for the advanced state
        have hrange1 : s1.line2pos = List.range s1.line2pos.length := by
          rw [hl2p]
          split
          · rename_i hle
            have hm : s.line2pos.length = s.lineno + 1 := by omega
            rw [hrange]
            simp only [List.length_append, List.length_range, List.length_cons,
              List.length_nil]
            rw [hm, hfp]
            exact (List.range_succ (s.lineno + 1)).symm
          · exact hrange
        have hlen1 : s.line2pos.length ≤ s1.line2pos.length := by
          rw [hl2p]
          split
          · simp
          · exact le_refl _
        have hlt1' : s1.lineno < s1.line2pos.length := by
          rw [hl2p, hl1]
          split
          · simp; omega
          · rename_i hgt; omega
        have he1 : ∀ ev, e = some ev → s1.lineno ≤ ev := by
          intro ev hev
          have := he ev hev
          have hne : ev ≠ s.lineno := fun hc => hstop (by rw [hev, hc])
          omega
        have hfuel1 : s1.flines.length - s1.fpos < fuel := by
          rw [hf1, hp1]; omega
        have hfp1 : s1.fpos = s1.lineno := by rw [hp1, hl1]; omega
        obtain ⟨s2, hres, hfl2, hr2, hlen2⟩ := ih s1 e (acc ++ [l]) hfuel1 hfp1 hrange1
          hlt1' he1
        have hlen12 : s.line2pos.length ≤ s2.line2pos.length := by
          calc s.line2pos.length ≤ s1.line2pos.length := hlen1
            _ ≤ s2.line2pos.length := hlen2
        refine ⟨s2, ?_, by rw [hfl2, hf1], hr2, hlen12⟩
        simp only
        rw [hres]
        have hdropc : s.flines.drop s.lineno = l :: s.flines.drop (s.lineno + 1) := by
          have hfll : s.lineno < s.flines.length := by omega
          rw [List.drop_eq_getElem_cons hfll]
          congr 1
          have hgg := hget
          rw [hfp] at hgg
          rw [List.get?_eq_get hfll] at hgg
          simp only [Option.some.injEq] at hgg
          rw [← hgg]
          simp [List.get_eq_getElem]
        have hseg : frSegment s.flines s.lineno e = l :: frSegment s1.flines s1.lineno e := by
          rw [hf1, hl1]
          cases e with
          | none => simp [frSegment, hdropc]
          | some ev =>
            have hlte : s.lineno < ev := by
              have := he ev rfl
              have hne : ev ≠ s.lineno := fun hc => hstop (by rw [hc])
              omega
            have hev : ev - s.lineno = (ev - (s.lineno + 1)) + 1 := by omega
            simp only [frSegment, hdropc, hev, List.take_succ_cons]
        rw [hseg]
        simp

/-- C10.  FileReader.get_raw_lines returns the verbatim lines of the range
and leaves the observable reader position unchanged: for a well-formed
stream reader (offset at the current line, a line-offset index covering the
current position and the requested start), the returned lines are exactly
the slice from start to end (to EOF when end is omitted), the position and
offset after the call equal those before, and a subsequent line read
returns the same line and positions as it would have before the call. -/
theorem C10_FR_get_raw_lines (s : FRState) (start : Nat) (e : Option Nat)
    (hrange : s.line2pos = List.range s.line2pos.length)
    (hfp : s.fpos = s.lineno)
    (hlt : s.lineno < s.line2pos.length)
    (hst : start < s.line2pos.length)
    (he : ∀ ev, e = some ev → start ≤ ev) :
    (FR_get_raw_lines s start e).1 = frSegment s.flines start e ∧
    (FR_get_raw_lines s start e).2.lineno = s.lineno ∧
    (FR_get_raw_lines s start e).2.fpos = s.fpos ∧
    (FR_get_raw_lines s start e).2.flines = s.flines ∧
    (FR_get_line (FR_get_raw_lines s start e).2).map (fun p => (p.1, p.2.fpos, p.2.lineno)) =
      (FR_get_line s).map (fun p => (p.1, p.2.fpos, p.2.lineno)) := by
  have ht1 : (FR_set_pos s start).flines = s.flines := rfl
  have ht2 : (FR_set_pos s start).lineno = start := rfl
  have ht3 : (FR_set_pos s start).line2pos = s.line2pos := rfl
  have ht4 : (FR_set_pos s start).fpos = start := by
    show s.line2pos.getD start 0 = start
    rw [hrange]
    exact range_getD _ _ hst
  obtain ⟨s2, hres, hfl2, hr2, hlen2⟩ :=
    FR_raw_loop_go ((FR_set_pos s start).flines.length - (FR_set_pos s start).fpos + 1)
      (FR_set_pos s start) e []
      (by omega)
      (by rw [ht4, ht2])
      (by rw [ht3]; exact hrange)
      (by rw [ht2, ht3]; exact hst)
      (by intro ev hev; rw [ht2]; exact he ev hev)
  simp only [FR_get_raw_lines]
  rw [hres]
  simp only [List.nil_append]
  rw [ht3] at hlen2
  have hg1 : (FR_set_pos s2 (FR_get_pos s)).lineno = s.lineno := rfl
  have hg2 : (FR_set_pos s2 (FR_get_pos s)).flines = s2.flines := rfl
  have hg3 : (FR_set_pos s2 (FR_get_pos s)).fpos = s.fpos := by
    show s2.line2pos.getD s.lineno 0 = s.fpos
    rw [hr2, range_getD _ _ (by omega), hfp]
  refine ⟨by rw [ht1, ht2], hg1, hg3, by rw [hg2, hfl2, ht1], ?_⟩
  have hgfl : (FR_set_pos s2 (FR_get_pos s)).flines = s.flines := by
    rw [hg2, hfl2, ht1]
  unfold FR_get_line
  rw [hgfl, hg3, hg1]
  cases hgl : s.flines.get? s.fpos <;> simp

def c10state : FRState :=
  { flines := ["a\n".data, "b\n".data, "c\n".data], fpos := 1, lineno := 1,
    line2pos := [0, 1, 2] }

/-- C10 witness: the hypotheses and the position-preservation conclusion at
a concrete stream reader, range 0 to 2. -/
theorem C10_FR_get_raw_lines_witness :
    c10state.line2pos = List.range c10state.line2pos.length ∧
    c10state.fpos = c10state.lineno ∧
    c10state.lineno < c10state.line2pos.length ∧
    0 < c10state.line2pos.length ∧
    (FR_get_raw_lines c10state 0 (some 2)).1 = frSegment c10state.flines 0 (some 2) ∧
    (FR_get_raw_lines c10state 0 (some 2)).2.lineno = c10state.lineno ∧
    (FR_get_raw_lines c10state 0 (some 2)).2.fpos = c10state.fpos := by
  have h := C10_FR_get_raw_lines c10state 0 (some 2) (by decide) (by decide) (by decide)
    (by decide) (by intro ev hev; cases hev; decide)
  exact ⟨by decide, by decide, by decide, by decide, h.1, h.2.1, h.2.2.1⟩

/-!  Preservation of the reader line list: no parser function ever changes
the underlying list of input lines, only the position and mode fields.
These lemmas feed the preamble theorem for C4. -/

theorem get_line_lines (st : RState) (sc : Bool) :
    (get_line st sc).1.lines = st.lines :=
  pget_line_lines st st.indent st.rfc934_nesting st.strip_cr sc

theorem get_raw_line_lines (st : RState) :
    (get_raw_line st).1.lines = st.lines :=
  pget_line_lines st 0 0 false true

theorem strip_indent_lines (st : RState) :
    (strip_indent st).2.lines = st.lines ∧ (strip_indent st).2.lineno = st.lineno := by
  unfold strip_indent
  rcases h : stripScan st.tab_size st.line 0 0 with ⟨ind, i⟩
  exact ⟨rfl, rfl⟩

theorem set_pos_lines (st : RState) (p : Int) : (set_pos st p).lines = st.lines := rfl

theorem UniHunk_parse_lines (hunk : Hunk) (st : RState) :
    (UniHunk_parse hunk st).2.lines = st.lines := by
  unfold UniHunk_parse
  rcases hget : get_line st true with ⟨st1, ok⟩
  have h1 : st1.lines = st.lines := by
    have := get_line_lines st true
    rw [hget] at this
    exact this
  simp only
  split
  · exact h1
  · split
    · exact h1
    · split
      · rename_i st2 heq
        exact ((uniHunkLoop_spec _ _ _ _ _ _ _ _ heq).1).trans h1
      · rename_i src dst st2 heq
        exact ((uniHunkLoop_spec _ _ _ _ _ _ _ _ heq).1).trans h1

theorem NormalHunk_parse_lines (hunk : Hunk) (st : RState) :
    (NormalHunk_parse hunk st).2.lines = st.lines := by
  unfold NormalHunk_parse
  rcases hget : get_line st true with ⟨st1, ok⟩
  have h1 : st1.lines = st.lines := by
    have := get_line_lines st true
    rw [hget] at this
    exact this
  simp only
  split
  · exact h1
  · split
    · exact h1
    · exact h1

theorem edHunkLoop_lines (fuel : Nat) : ∀ (st : RState),
    (edHunkLoop fuel st).2.lines = st.lines := by
  induction fuel with
  | zero => intro st; rfl
  | succ fuel ih =>
    intro st
    rw [edHunkLoop]
    rcases hget : get_line st false with ⟨st1, ok⟩
    have h1 : st1.lines = st.lines := by
      have := get_line_lines st false
      rw [hget] at this
      exact this
    simp only
    split
    · split
      · exact h1
      · exact (ih st1).trans h1
    · exact h1

theorem EdHunk_parse_lines (hunk : Hunk) (st : RState) (r : Option Hunk × RState)
    (h : EdHunk_parse hunk st = .ok r) : r.2.lines = st.lines := by
  unfold EdHunk_parse at h
  rcases hget : get_line st true with ⟨st1, ok⟩
  rw [hget] at h
  have h1 : st1.lines = st.lines := by
    have := get_line_lines st true
    rw [hget] at this
    exact this
  simp only at h
  split at h
  · cases h; exact h1
  · split at h
    · cases h
    · split at h
      · cases h; exact h1
      · rcases hloop : edHunkLoop (st1.lines.length - st1.lineno + 1) st1 with ⟨res, st2⟩
        rw [hloop] at h
        have h2 : st2.lines = st1.lines := by
          have := edHunkLoop_lines (st1.lines.length - st1.lineno + 1) st1
          rw [hloop] at this
          exact this
        cases res with
        | none => simp only at h; cases h; exact h2.trans h1
        | some e => simp only at h; cases h; exact h2.trans h1

theorem hunk_parse_lines (d : Dialect) (hunk : Hunk) (st : RState)
    (r : Option Hunk × RState) (h : hunk_parse d hunk st = .ok r) :
    r.2.lines = st.lines := by
  cases d with
  | normal =>
    simp only [hunk_parse, Except.ok.injEq] at h
    rw [← h]
    exact NormalHunk_parse_lines hunk st
  | ed => exact EdHunk_parse_lines hunk st r h
  | uni =>
    simp only [hunk_parse, Except.ok.injEq] at h
    rw [← h]
    exact UniHunk_parse_lines hunk st
  | context => cases h
  | newContext => cases h
  | gitBinary => cases h
  | any => cases h

theorem patchHunksLoop_lines (fuel : Nat) : ∀ (d : Dialect) (acc : List Hunk)
    (st : RState) (r : List Hunk × RState),
    patchHunksLoop fuel d acc st = .ok r → r.2.lines = st.lines := by
  induction fuel with
  | zero =>
    intro d acc st r h
    cases h
    rfl
  | succ fuel ih =>
    intro d acc st r h
    rw [patchHunksLoop] at h
    rcases hh : hunk_parse d {} st with herr | ⟨oh, st1⟩
    · rw [hh] at h; cases h
    · rw [hh] at h
      have h1 : st1.lines = st.lines := hunk_parse_lines d {} st (oh, st1) hh
      simp only [Bind.bind, Except.bind] at h
      cases oh with
      | none => simp only at h; cases h; exact h1
      | some hk =>
        simp only at h
        exact (ih d (acc ++ [hk]) st1 r h).trans h1

theorem Patch_parse_lines (fuel : Nat) (p : PatchR) (st : RState)
    (r : PatchR × RState) (h : Patch_parse fuel p st = .ok r) :
    r.2.lines = st.lines ∧ r.1.header = p.header := by
  unfold Patch_parse at h
  rcases hl : patchHunksLoop fuel p.dialect [] st with herr | ⟨hunks, st1⟩
  · rw [hl] at h; cases h
  · rw [hl] at h
    simp only [Bind.bind, Except.bind, Except.ok.injEq] at h
    rw [← h]
    exact ⟨patchHunksLoop_lines fuel p.dialect [] st (hunks, st1) hl, rfl⟩

/-- The scan state carried by a chain-step result. -/
def ChainRes.scanOf : ChainRes → Scan
  | .brk s => s
  | .cont s _ _ _ => s

/-- The scan state carried by a trigger-step result. -/
def TrigRes.scanOf : TrigRes → Scan
  | .brk s => s
  | .done s _ => s

theorem apChainDash_lines (dp : Chars → Option Nat) (s : Scan) (line : Chars)
    (indent : Nat) (cr : Bool) (pos : Int) :
    ((apChainDash dp s line indent cr pos).scanOf).st.lines = s.st.lines := by
  simp only [apChainDash]
  repeat' first | rfl | split

theorem apChainGit_lines (dp : Chars → Option Nat) (s : Scan) (line : Chars)
    (indent : Nat) (cr : Bool) (pos : Int) :
    ((apChainGit dp s line indent cr pos).scanOf).st.lines = s.st.lines := by
  have tail := apChainDash_lines dp s line indent cr pos
  simp only [apChainGit]
  by_cases h1 : s.git_diff ∧ startswithFrom line "index ".data 0
  · rw [if_pos h1]
    cases hm : re_gitindex_match (line.drop 6) with
    | some mode => rfl
    | none => rfl
  · rw [if_neg h1]
    by_cases h2 : s.git_diff ∧ startswithFrom line "old mode ".data 0
    · rw [if_pos h2]; rfl
    · rw [if_neg h2]
      by_cases h3 : s.git_diff ∧ startswithFrom line "new mode ".data 0
      · rw [if_pos h3]; rfl
      · rw [if_neg h3]
        by_cases h4 : s.git_diff ∧ startswithFrom line "deleted file mode ".data 0
        · rw [if_pos h4]; rfl
        · rw [if_neg h4]
          by_cases h5 : s.git_diff ∧ startswithFrom line "new file mode ".data 0
          · rw [if_pos h5]; rfl
          · rw [if_neg h5]
            by_cases h6 : s.git_diff ∧ startswithFrom line "rename from ".data 0
            · rw [if_pos h6]; rfl
            · rw [if_neg h6]
              by_cases h7 : s.git_diff ∧ startswithFrom line "rename to ".data 0
              · rw [if_pos h7]; rfl
              · rw [if_neg h7]
                by_cases h8 : s.git_diff ∧ startswithFrom line "copy from ".data 0
                · rw [if_pos h8]; rfl
                · rw [if_neg h8]
                  by_cases h9 : s.git_diff ∧ startswithFrom line "copy to ".data 0
                  · rw [if_pos h9]; rfl
                  · rw [if_neg h9]
                    by_cases h10 : s.git_diff ∧ startswithFrom line "GIT binary patch".data 0
                    · rw [if_pos h10]; rfl
                    · rw [if_neg h10]
                      exact tail

theorem apChainHdr_lines (dp : Chars → Option Nat) (dt : Dialect) (s : Scan)
    (line : Chars) (indent : Nat) (cr : Bool) (pos : Int) :
    ((apChainHdr dp dt s line indent cr pos).scanOf).st.lines = s.st.lines := by
  have tail := apChainGit_lines dp s line indent cr pos
  simp only [apChainHdr]
  by_cases h1 : (dt = .any ∨ dt = .ed) ∧ ¬ s.needHeader ∧ s.edcmdpos = none ∧
      (get_edcmd line).isSome
  · rw [if_pos h1]; rfl
  · rw [if_neg h1]
    by_cases h2 : (dt = .any ∨ dt = .context ∨ dt = .newContext) ∧
        startswithFrom line "*** ".data 0
    · rw [if_pos h2]; rfl
    · rw [if_neg h2]
      by_cases h3 : startswithFrom line "+++ ".data 0
      · rw [if_pos h3]; rfl
      · rw [if_neg h3]
        by_cases h4 : startswithFrom line "Index:".data 0
        · rw [if_pos h4]; rfl
        · rw [if_neg h4]
          by_cases h5 : startswithFrom line "Prereq:".data 0
          · rw [if_pos h5]; rfl
          · rw [if_neg h5]
            by_cases h6 : (dt = .any ∨ dt = .uni) ∧ startswithFrom line "diff --git ".data 0
            · rw [if_pos h6]
              by_cases h7 : s.exthdrs
              · rw [if_pos h7]; rfl
              · rw [if_neg h7]
                rcases hp : parse_name (line.drop 11) false with ⟨a, b⟩
                rfl
            · rw [if_neg h6]
              exact tail

theorem apChain_lines (dp : Chars → Option Nat) (dt : Dialect) (s : Scan)
    (line : Chars) (indent : Nat) (cr : Bool) :
    ((apChain dp dt s line indent cr).scanOf).st.lines = s.st.lines := by
  unfold apChain
  split
  · -- the normal-command branch reads one more raw line
    dsimp only
    rcases hget : get_raw_line { s.st with strip_cr := cr } with ⟨st1, ok⟩
    have h1 : st1.lines = s.st.lines := by
      have := get_raw_line_lines { s.st with strip_cr := cr }
      rw [hget] at this
      exact this
    dsimp only
    split
    · exact h1
    · rcases hs : strip_indent st1 with ⟨ind2, st2⟩
      have h2 : st2.lines = st1.lines := by
        have := (strip_indent_lines st1).1
        rw [hs] at this
        exact this
      dsimp only
      split
      · exact h2.trans h1
      · exact h2.trans h1
  · exact apChainHdr_lines dp dt s line indent cr (get_pos s.st 0)

theorem apTriggers_lines (dt : Dialect) (s : Scan) (line : Chars) (indent : Nat)
    (cr : Bool) :
    ((apTriggers dt s line indent cr).scanOf).st.lines = s.st.lines := by
  unfold apTriggers
  split
  · rfl
  · split
    · rfl
    · split
      · rfl
      · split
        · -- the context-divider branch reads one more raw line
          rcases hr : get_raw_line s.st with ⟨st1, ok⟩
          have h1 : st1.lines = s.st.lines := by
            have := get_raw_line_lines s.st
            rw [hr] at this
            exact this
          simp only
          split
          · exact h1
          · rcases hs2 : strip_indent st1 with ⟨ind2, st2⟩
            have h2 : st2.lines = st1.lines := by
              have := (strip_indent_lines st1).1
              rw [hs2] at this
              exact this
            simp only
            split
            · exact h2.trans h1
            · exact h2.trans h1
        · rfl

theorem add_patch_scan_lines (dp : Chars → Option Nat) (dt : Dialect) (fuel : Nat) :
    ∀ (s : Scan), (add_patch_scan dp dt fuel s).2.st.lines = s.st.lines := by
  induction fuel with
  | zero => intro s; rfl
  | succ fuel ih =>
    intro s
    rw [add_patch_scan]
    rcases hr : get_raw_line s.st with ⟨st1, ok⟩
    have h1 : st1.lines = s.st.lines := by
      have := get_raw_line_lines s.st
      rw [hr] at this
      exact this
    simp only
    split
    · exact h1
    · rcases hs2 : strip_indent st1 with ⟨ind2, st2⟩
      have h2 : st2.lines = st1.lines := by
        have := (strip_indent_lines st1).1
        rw [hs2] at this
        exact this
      simp only
      split
      · rename_i s1 hc
        have hcl := congrArg (fun r => (ChainRes.scanOf r).st.lines) hc
        have hs1 : s1.st.lines = st2.lines :=
          (hcl.symm).trans (apChain_lines dp dt _ _ _ _)
        exact hs1.trans (h2.trans h1)
      · rename_i s1 l1 i1 f1 hc
        have hcl := congrArg (fun r => (ChainRes.scanOf r).st.lines) hc
        have hs1 : s1.st.lines = st2.lines :=
          (hcl.symm).trans (apChain_lines dp dt _ _ _ _)
        split
        · rename_i s2 ht
          have htl := congrArg (fun r => (TrigRes.scanOf r).st.lines) ht
          have hs2t : s2.st.lines = s1.st.lines :=
            (htl.symm).trans (apTriggers_lines dt _ _ _ _)
          exact hs2t.trans (hs1.trans (h2.trans h1))
        · rename_i s2 f2 ht
          have htl := congrArg (fun r => (TrigRes.scanOf r).st.lines) ht
          have hs2t : s2.st.lines = s1.st.lines :=
            (htl.symm).trans (apTriggers_lines dt _ _ _ _)
          split
          · exact hs2t.trans (hs1.trans (h2.trans h1))
          · split
            · exact hs2t.trans (hs1.trans (h2.trans h1))
            · exact (ih s2).trans (hs2t.trans (hs1.trans (h2.trans h1)))


theorem add_patch_finish_lines (fuel : Nat) (found : Option (PatchR × Int)) (s1 : Scan)
    (r : Option (PatchR × Int) × RState × Option Chars)
    (h : add_patch_finish fuel found s1 = .ok r) :
    r.2.1.lines = s1.st.lines := by
  unfold add_patch_finish at h
  rcases hf : add_patch_found2 found s1 with _ | ⟨p, start⟩
  · rw [hf] at h
    cases h
    rfl
  · rw [hf] at h
    dsimp only at h
    rcases hp : Patch_parse fuel p (set_pos s1.st start) with e | ⟨p1, st3⟩
    · rw [hp] at h
      simp only [Bind.bind, Except.bind] at h
      cases h
    · rw [hp] at h
      simp only [Bind.bind, Except.bind, Except.ok.injEq] at h
      rw [← h]
      exact (Patch_parse_lines fuel p (set_pos s1.st start) (p1, st3) hp).1

theorem add_patch_lines (dp : Chars → Option Nat) (dt : Dialect) (nh : Bool)
    (fuel : Nat) (st : RState) (rev : Option Chars)
    (r : Option (PatchR × Int) × RState × Option Chars)
    (h : add_patch dp dt nh fuel st rev = .ok r) :
    r.2.1.lines = st.lines := by
  unfold add_patch at h
  dsimp only at h
  exact (add_patch_finish_lines fuel _ _ r h).trans (add_patch_scan_lines dp dt fuel _)

theorem PatchFile_loop_spec (dp : Chars → Option Nat) (dt : Dialect) (nh : Bool)
    (startpos : Int) (fuel : Nat) :
    ∀ (st : RState) (patches : List PatchR) (header : Option (List Chars))
      (endP : Option Int) (rev : Option Chars)
      (out : RState × List PatchR × Option (List Chars) × Option Int × Option Chars),
      PatchFile_loop dp dt nh startpos fuel st patches header endP rev = .ok out →
      out.1.lines = st.lines ∧
      (∃ more, out.2.1 = patches ++ more) ∧
      (∀ h0, header = some h0 → out.2.2.1 = some h0) ∧
      (header = none → patches = [] →
        (out.2.1 = [] ∧ out.2.2.1 = none) ∨
        (∃ p rest, out.2.1 = p :: rest ∧
          out.2.2.1 = some (pySlice st.lines startpos.toNat p.header.beginP))) := by
  induction fuel with
  | zero =>
    intro st patches header endP rev out h
    cases h
    exact ⟨rfl, ⟨[], (List.append_nil _).symm⟩, fun h0 hh => hh,
      fun hh hp => Or.inl ⟨hp, hh⟩⟩
  | succ fuel ih =>
    intro st patches header endP rev out h
    rw [PatchFile_loop] at h
    rcases hap : add_patch dp dt nh fuel st rev with e | ⟨res, st1, rev1⟩
    · rw [hap] at h
      simp only [Bind.bind, Except.bind] at h
      cases h
    · rw [hap] at h
      simp only [Bind.bind, Except.bind] at h
      have hlines : st1.lines = st.lines :=
        add_patch_lines dp dt nh fuel st rev (res, st1, rev1) hap
      cases res with
      | none =>
        dsimp only at h
        cases h
        exact ⟨hlines, ⟨[], (List.append_nil _).symm⟩, fun h0 hh => hh,
          fun hh hp => Or.inl ⟨hp, hh⟩⟩
      | some pe =>
        rcases pe with ⟨p, e⟩
        dsimp only at h
        cases header with
        | some h0 =>
          dsimp only at h
          obtain ⟨l1, ⟨more, hm⟩, hpers, _⟩ :=
            ih st1 (patches ++ [p]) (some h0) (some e) rev1 out h
          refine ⟨l1.trans hlines, ⟨[p] ++ more, by rw [hm, List.append_assoc]⟩,
            fun h1 hh1 => ?_, fun hh _ => Option.noConfusion hh⟩
          rw [← hh1]
          exact hpers h0 rfl
        | none =>
          dsimp only at h
          obtain ⟨l1, ⟨more, hm⟩, hpers, _⟩ :=
            ih st1 (patches ++ [p])
              (some (get_raw_lines st1 startpos p.header.beginP)) (some e) rev1 out h
          refine ⟨l1.trans hlines, ⟨[p] ++ more, by rw [hm, List.append_assoc]⟩,
            fun h1 hh1 => Option.noConfusion hh1, fun _ hp => ?_⟩
          subst hp
          refine Or.inr ⟨p, more, ?_, ?_⟩
          · rw [hm]
            rfl
          · have h2 := hpers (get_raw_lines st1 startpos p.header.beginP) rfl
            rw [h2]
            unfold get_raw_lines
            rw [hlines]

def scen1 : List Chars :=
  ["--- a\t2020-01-01 00:00:00\n".data, "+++ b\t2020-01-01 00:00:01\n".data,
   "@@ -1,2 +1,2 @@\n".data, " hello\n".data, "-world\n".data, "+WORLD\n".data]

def fiOldScen : FileInfo :=
  { name := some "a".data, timestr := some "2020-01-01 00:00:00".data, stamp := some 1 }

def fiNewScen : FileInfo :=
  { name := some "b".data, timestr := some "2020-01-01 00:00:01".data, stamp := some 2 }

def hdrScen : HeaderR :=
  { old := fiOldScen, new := fiNewScen, index := none, beginP := some 0, endP := some 1 }

def preScen : PatchR :=
  { dialect := .uni, header := hdrScen, hunks := [], beginP := some 0, endP := none }

def scenHunk : Hunk :=
  { srcline := some 1, dstline := some 1, sect := none,
    src := [{ op := ' ', text := "hello\n".data }, { op := '-', text := "world\n".data }],
    dst := [{ op := ' ', text := "hello\n".data }, { op := '+', text := "WORLD\n".data }],
    beginP := some 2, endP := some 5 }

def scen1p : PatchR :=
  { dialect := .uni, header := hdrScen, hunks := [scenHunk], beginP := some 0, endP := some 5 }

def s1scen : Scan :=
  { st := { lines := scen1, lineno := 3, line := "@@ -1,2 +1,2 @@\n".data, tab_size := 8,
            indent := 0, rfc934_nesting := 0, strip_cr := false },
    hdr := hdrScen, edcmdpos := none, git_diff := false, exthdrs := false,
    needHeader := false, revision := none }

def stAscen : RState :=
  { lines := scen1, lineno := 6, line := "+WORLD\n".data, tab_size := 8,
    indent := 0, rfc934_nesting := 0, strip_cr := false }

def scen1pf : PF :=
  { header := [], patches := [scen1p], endP := some 5, revision := none }

set_option maxHeartbeats 1000000 in
theorem scanScenEq :
    add_patch_scan dpScen .any 19 (add_patch_start .any true (LineReader.init scen1) none) =
      (some (preScen, 2), s1scen) := by
  rfl

set_option maxHeartbeats 1000000 in
theorem finScenEq :
    add_patch_finish 19 (some (preScen, 2)) s1scen =
      .ok (some (scen1p, 5), stAscen, none) := by
  rfl

theorem A1scen :
    add_patch dpScen .any true 19 (LineReader.init scen1) none =
      .ok (some (scen1p, 5), stAscen, none) := by
  unfold add_patch
  dsimp only
  rw [scanScenEq]
  exact finScenEq

theorem PatchFile_loop_step (dp : Chars → Option Nat) (dt : Dialect) (nh : Bool)
    (sp : Int) (fuel : Nat) (st : RState) (patches : List PatchR)
    (header : Option (List Chars)) (endP : Option Int) (rev : Option Chars)
    (p : PatchR) (e : Int) (st1 : RState) (rev1 : Option Chars)
    (h : add_patch dp dt nh fuel st rev = .ok (some (p, e), st1, rev1)) :
    PatchFile_loop dp dt nh sp (fuel + 1) st patches header endP rev =
      PatchFile_loop dp dt nh sp fuel st1 (patches ++ [p])
        (match header with
         | some h0 => some h0
         | none => some (get_raw_lines st1 sp p.header.beginP)) (some e) rev1 := by
  simp only [PatchFile_loop]
  rw [h]
  simp only [Bind.bind, Except.bind]

set_option maxHeartbeats 1000000 in
theorem scen1_run :
    PatchFile_init dpScen .any true 20 (LineReader.init scen1) = .ok scen1pf := by
  unfold PatchFile_init
  dsimp only
  rw [show (20 : Nat) = 19 + 1 from rfl,
    PatchFile_loop_step dpScen .any true (get_pos (LineReader.init scen1) 0) 19
      (LineReader.init scen1) [] none none none scen1p 5 stAscen none A1scen]
  rfl


/-- RFC-934 encapsulation of one line: a forwarding agent prefixes each
line that begins with a dash by the two characters of the quote mark. -/
def rfc934Quote (l : Chars) : Chars :=
  if l.head? = some '-' then '-' :: ' ' :: l else l

def c5rfc : List Chars :=
  ["- --- a\t2020-01-01 00:00:00\n".data, "+++ b\t2020-01-01 00:00:01\n".data,
   "@@ -1,2 +1,2 @@\n".data, " hello\n".data, "- -world\n".data, "+WORLD\n".data]

def c5all : List Chars := scen1.map (fun l => '-' :: ' ' :: l)

def s1rfc : Scan :=
  { st := { lines := c5rfc, lineno := 3, line := "@@ -1,2 +1,2 @@\n".data, tab_size := 8,
            indent := 0, rfc934_nesting := 1, strip_cr := false },
    hdr := hdrScen, edcmdpos := none, git_diff := false, exthdrs := false,
    needHeader := false, revision := none }

def stArfc : RState :=
  { lines := c5rfc, lineno := 6, line := "+WORLD\n".data, tab_size := 8,
    indent := 0, rfc934_nesting := 1, strip_cr := false }

set_option maxHeartbeats 1000000 in
theorem scanRfcEq :
    add_patch_scan dpScen .any 19 (add_patch_start .any true (LineReader.init c5rfc) none) =
      (some (preScen, 2), s1rfc) := by
  rfl

set_option maxHeartbeats 1000000 in
theorem finRfcEq :
    add_patch_finish 19 (some (preScen, 2)) s1rfc =
      .ok (some (scen1p, 5), stArfc, none) := by
  rfl

theorem A1rfc :
    add_patch dpScen .any true 19 (LineReader.init c5rfc) none =
      .ok (some (scen1p, 5), stArfc, none) := by
  unfold add_patch
  dsimp only
  rw [scanRfcEq]
  exact finRfcEq

set_option maxHeartbeats 1000000 in
theorem c5rfc_run :
    PatchFile_init dpScen .any true 20 (LineReader.init c5rfc) = .ok scen1pf := by
  unfold PatchFile_init
  dsimp only
  rw [show (20 : Nat) = 19 + 1 from rfl,
    PatchFile_loop_step dpScen .any true (get_pos (LineReader.init c5rfc) 0) 19
      (LineReader.init c5rfc) [] none none none scen1p 5 stArfc none A1rfc]
  rfl

def edlines : List Chars := ["0a\n".data, "x\n".data, ".\n".data]

def edpf : PF :=
  { header := ["0a\n".data, "x\n".data, ".\n".data],
    patches := [{ dialect := .ed, header := {},
                  hunks := [{ srcline := none, dstline := none, sect := none,
                              src := [], dst := [], beginP := some 0, endP := some 2 }],
                  beginP := some 0, endP := some 2 }],
    endP := some 2, revision := none }

set_option maxHeartbeats 1000000 in
theorem ed_run :
    PatchFile_init dpNone .ed false 20 (LineReader.init edlines) = .ok edpf := by
  rfl

def c9lines : List Chars :=
  ["diff --git a/x b/y\n".data, "deleted file mode 100644\n".data]

def c9newlines : List Chars :=
  ["diff --git a/x b/y\n".data, "new file mode 100644\n".data]

def c9p : PatchR :=
  { dialect := .uni,
    header := { old := { mode := some 0 }, new := {},
                index := none, beginP := some 0, endP := some 1 },
    hunks := [], beginP := some 0, endP := some 1 }

def c9pf : PF :=
  { header := [], patches := [c9p], endP := some 1, revision := none }

def c9newpf : PF :=
  { header := [],
    patches := [{ dialect := .uni,
                  header := { old := {}, new := { mode := some 33188 },
                              index := none, beginP := some 0, endP := some 1 },
                  hunks := [], beginP := some 0, endP := some 1 }],
    endP := some 1, revision := none }

set_option maxHeartbeats 1000000 in
theorem c9_run :
    PatchFile_init dpNone .any true 20 (LineReader.init c9lines) = .ok c9pf := by
  rfl

set_option maxHeartbeats 1000000 in
theorem c9new_run :
    PatchFile_init dpNone .any true 20 (LineReader.init c9newlines) = .ok c9newpf := by
  rfl



/-- The raw line range a parsed patch covers in the stream, as the claimed
round-trip words it: the verbatim lines from the patch begin position
through its end position inclusive. -/
def patchRawRange (lines : List Chars) (p : PatchR) : List Chars :=
  match p.beginP, p.endP with
  | some b, some e => pySlice lines b.toNat (some (e + 1))
  | _, _ => []

/-- The claimed round-trip: the header lines followed by the raw ranges of
all patches reassemble the input stream. -/
def reconstructsB (lines : List Chars) (pf : PF) : Bool :=
  decide (pf.header ++ (pf.patches.map (patchRawRange lines)).flatten = lines)

set_option maxHeartbeats 1000000 in
/-- C4: counterexample.  An ed patch records no header begin position, so
the FileHeader is the whole stream and overlaps the patch range: the header
lines followed by the patch raw ranges do not reconstruct the input.  For a
git patch whose header begin is recorded, the reconstruction does hold. -/
theorem C4_counterexample :
    ((PatchFile_init dpNone .ed false 20 (LineReader.init edlines)).toOption.map
        (fun pf => (reconstructsB edlines pf, pf.header.length,
          pf.patches.map (fun p => (p.beginP, p.endP)))) =
      some (false, 3, [(some 0, some 2)])) ∧
    ((PatchFile_init dpNone .any true 20 (LineReader.init c9lines)).toOption.map
        (fun pf => reconstructsB c9lines pf) = some true) := by
  constructor
  · rw [ed_run]
    rfl
  · rw [c9_run]
    rfl

/-- C4 (amended): for every input and dialect, when parsing yields at
least one patch, the FileHeader is verbatim the raw slice of the stream
from the start position up to the first patch header begin position:
exactly lines[0 : patches[0].header.begin]. -/
theorem C4_preamble (dp : Chars → Option Nat) (dt : Dialect) (nh : Bool)
    (fuel : Nat) (lines : List Chars) (pf : PF) (p : PatchR) (rest : List PatchR)
    (h : PatchFile_init dp dt nh fuel (LineReader.init lines) = .ok pf)
    (hp : pf.patches = p :: rest) :
    pf.header = pySlice lines 0 p.header.beginP := by
  unfold PatchFile_init at h
  dsimp only at h
  rcases hl : PatchFile_loop dp dt nh (get_pos (LineReader.init lines) 0) fuel
      (LineReader.init lines) [] none none none with e | out
  · rw [hl] at h
    simp only [Bind.bind, Except.bind] at h
    cases h
  · rw [hl] at h
    simp only [Bind.bind, Except.bind, Except.ok.injEq] at h
    obtain ⟨-, -, -, hc⟩ :=
      PatchFile_loop_spec dp dt nh (get_pos (LineReader.init lines) 0) fuel
        (LineReader.init lines) [] none none none out hl
    rcases hc rfl rfl with ⟨hnil, hhd⟩ | ⟨p1, rest1, hcons, hhd⟩
    · rw [← h] at hp
      dsimp only at hp
      rw [hnil] at hp
      cases hp
    · rw [← h] at hp
      dsimp only at hp
      rw [hcons] at hp
      cases hp
      rw [← h]
      dsimp only
      rw [hhd]
      rfl

/-- Witness: C4_preamble instantiated on a concrete git deletion patch. -/
theorem C4_preamble_witness :
    PatchFile_init dpNone .any true 20 (LineReader.init c9lines) = .ok c9pf ∧
    c9pf.patches = [c9p] ∧
    c9pf.header = pySlice c9lines 0 c9p.header.beginP :=
  ⟨c9_run, rfl, C4_preamble dpNone .any true 20 c9lines c9pf c9p [] c9_run rfl⟩

set_option maxHeartbeats 1000000 in
/-- C5: counterexample.  Prefixing EVERY line of the hello-world unified
input with the two characters of the quote mark yields no patch at all:
the whole six-line stream becomes the FileHeader and patches is empty. -/
theorem C5_counterexample :
    (PatchFile_init dpScen .any true 20 (LineReader.init c5all)).toOption.map
      (fun pf => (pf.patches, pf.header.length)) = some ([], 6) := by
  rfl

/-- C5 (amended): prefixing only the dash-initial lines of the hello-world
input (RFC-934 encapsulation) makes the scanner infer rfc934_nesting = 1 at
the quoted old-name marker, and the parse result is identical to that of
the unquoted input: the same single unified patch. -/
theorem C5_rfc934_quoting :
    c5rfc = scen1.map rfc934Quote ∧
    (add_patch_scan dpScen .any 19
        (add_patch_start .any true (LineReader.init c5rfc) none)).2.st.rfc934_nesting = 1 ∧
    PatchFile_init dpScen .any true 20 (LineReader.init c5rfc) = .ok scen1pf ∧
    PatchFile_init dpScen .any true 20 (LineReader.init scen1) = .ok scen1pf := by
  refine ⟨rfl, ?_, c5rfc_run, scen1_run⟩
  rw [scanRfcEq]
  rfl

/-- C9: in git mode a line starting with the deleted-file-mode keyword
slices the line from offset 9 instead of 18, so the octal digits are never
reached and the old-side mode is set to 0, not to the octal value of M;
the new-file-mode branch slices correctly and yields 0o100644 = 33188. -/
theorem C9_deleted_file_mode :
    ((PatchFile_init dpNone .any true 20 (LineReader.init c9lines)).toOption.map
        (fun pf => pf.patches.map (fun p => (p.header.old.mode, p.header.new.mode))) =
      some [(some 0, none)]) ∧
    ((PatchFile_init dpNone .any true 20 (LineReader.init c9newlines)).toOption.map
        (fun pf => pf.patches.map (fun p => (p.header.old.mode, p.header.new.mode))) =
      some [(none, some 33188)]) ∧
    fetchmode ("deleted file mode 100644\n".data.drop 9) = 0 ∧
    fetchmode ("deleted file mode 100644\n".data.drop 18) = 33188 ∧
    fetchmode "100644".data = 33188 := by
  refine ⟨?_, ?_, rfl, rfl, rfl⟩
  · rw [c9_run]
    rfl
  · rw [c9new_run]
    rfl

end Patchutils
